import Mathlib

/-!
A shallow embedding of `optional.h`.

The header defines `optional<T>`: a storage cell (`union storage`), a presence
flag `has_value_`, and the construct / destroy / copy / move operations that
keep the two in step, chosen at compile time from the traits of the held type.

The embedding makes everything the C++ abstract machine keeps implicit
explicit:

* the held type is a record `HeldType` of its constructors, assignments,
  comparisons and traits; its operations may fail;
* the storage cell holds `Option T`: `some t` while a `T` lives in member
  `value`, `none` otherwise. The flag `has_value_` is a separate field, so
  that "flag agrees with cell" is a property to be proved, not a tautology;
* every optional carries a ghost `log` of the lifetime events of its cell;
* an operation ends by returning, by throwing, by `std::terminate` (an
  exception leaving a `noexcept` function) or in undefined behaviour (reading
  member `value` of a cell in which no `T` lives).
-/

namespace OptionalModel

/-! ## Ghost events -/

/-- What can happen to the `T` of one storage cell. `implicit_begin` and
`implicit_end` are the lifetime changes made without any call into `T`: the
defaulted whole-object copy of the trivial strategy, and the release of the
storage of a trivially destructible `T`. -/
inductive Op where
  | construct
  | copy_construct
  | move_construct
  | copy_assign
  | move_assign
  | destroy
  | implicit_begin
  | implicit_end
  deriving DecidableEq

/-- One logged call: which operation, and whether it completed (`ok = false`
means that it threw). -/
structure Event where
  op : Op
  ok : Bool
  deriving DecidableEq

/-- Does a completed event of this kind begin the lifetime of a `T`. -/
def Op.begins : Op → Bool
  | .construct => true
  | .copy_construct => true
  | .move_construct => true
  | .implicit_begin => true
  | _ => false

/-- Does an event of this kind end the lifetime of a `T`. -/
def Op.ends : Op → Bool
  | .destroy => true
  | .implicit_end => true
  | _ => false

/-- Number of `T` objects whose lifetime began in the cell. -/
def constructions (log : List Event) : Nat :=
  log.countP (fun e => e.ok && e.op.begins)

/-- Number of `T` objects whose lifetime ended in the cell. -/
def destructions (log : List Event) : Nat :=
  log.countP (fun e => e.op.ends)

/-- Number of calls of the destructor `~T()` proper. -/
def destructor_calls (log : List Event) : Nat :=
  log.countP (fun e => e.op = Op.destroy)

/-! ## Outcomes -/

/-- How a call ends. -/
inductive Result (E : Type) (α : Type) where
  | returned (a : α)
  | threw (e : E)
  | terminated
  | undefined
  deriving DecidableEq

/-- The effect of a `noexcept(c)` specification on the outcome of the body:
when `c` holds an escaping exception becomes `std::terminate`. -/
def noexcept_if {E α : Type} (c : Bool) : Result E α → Result E α
  | .threw e => if c then .terminated else .threw e
  | r => r

/-! ## The held type -/

/-- The held type `T` as the header sees it: the operations it calls and the
traits it tests. `Args` stands for one non-empty argument list `Args...`, `E`
for what a failing operation of `T` throws.

* `default_construct` is `T()`, the construction from the empty argument list;
* `move_construct y` gives the outcome and the state the source is left in;
* `copy_assign x y` is `x = y`: the exception, if any, and the state of `x`
  afterwards (`x` stays alive either way);
* `move_assign x y` is `x = std::move(y)`: the same, and the state of `y`. -/
structure HeldType (T : Type) (Args : Type) (E : Type) where
  default_construct : Except E T
  construct : Args → Except E T
  copy_construct : T → Except E T
  move_construct : T → Except E T × T
  copy_assign : T → T → Option E × T
  move_assign : T → T → Option E × T × T
  eq : T → T → Bool
  lt : T → T → Bool
  has_trivial_copy_operations : Bool
  is_trivially_destructible : Bool
  is_nothrow_default_constructible : Bool
  is_nothrow_constructible : Bool
  is_nothrow_copy_constructible : Bool
  is_nothrow_move_constructible : Bool
  is_nothrow_copy_assignable : Bool
  is_nothrow_move_assignable : Bool
  is_move_constructible : Bool

/-- The trait `std::is_trivially_copyable_v<T>`: trivial copy and move
operations and a trivial destructor. -/
def HeldType.is_trivially_copyable {T Args E : Type} (H : HeldType T Args E) : Bool :=
  H.has_trivial_copy_operations && H.is_trivially_destructible

/-- A forwarded argument list `args...` and with it the constructor of `T`
that overload resolution picks: the empty list (default constructor), a
general non-empty list, one lvalue `T` (copy constructor) or one rvalue `T`
(move constructor). -/
inductive Init (T : Type) (Args : Type) where
  | empty
  | pack (a : Args)
  | lvalue (x : T)
  | rvalue (x : T)

/-- The expression `T(std::forward<Args>(args)...)`. -/
def HeldType.init {T Args E : Type} (H : HeldType T Args E) : Init T Args → Except E T
  | .empty => H.default_construct
  | .pack a => H.construct a
  | .lvalue x => H.copy_construct x
  | .rvalue x => (H.move_construct x).1

/-- The trait `std::is_nothrow_constructible_v<T, Args &&...>`. -/
def HeldType.init_nothrow {T Args E : Type} (H : HeldType T Args E) : Init T Args → Bool
  | .empty => H.is_nothrow_default_constructible
  | .pack _ => H.is_nothrow_constructible
  | .lvalue _ => H.is_nothrow_copy_constructible
  | .rvalue _ => H.is_nothrow_move_constructible

/-- The event kind logged for `T(std::forward<Args>(args)...)`. -/
def Init.op {T Args : Type} : Init T Args → Op
  | .empty => Op.construct
  | .pack _ => Op.construct
  | .lvalue _ => Op.copy_construct
  | .rvalue _ => Op.move_construct

/-- Is the argument list `args...` empty. -/
def Init.is_empty {T Args : Type} : Init T Args → Bool
  | .empty => true
  | _ => false

/-! ## Storage cell and optional -/

/-- The union `storage<T>`: `value = some t` while a `T` lives in member
`value`, `none` while `dummy` is active or no member is. -/
structure storage (T : Type) where
  value : Option T
  deriving DecidableEq

/-- The constructor `storage()`: `dummy` is active, no `T` is constructed. -/
def storage.empty {T : Type} : storage T :=
  { value := none }

/-- An object of class `optional<T>`: the members `stg` and `has_value_` of
`copy_base`, and the ghost log of the cell. -/
structure optional (T : Type) where
  stg : storage T
  has_value_ : Bool
  log : List Event
  deriving DecidableEq

/-- The explicit destructor call `stg.value.~T()`: the lifetime of the value
ends and the call is logged. -/
def optional.destroy_value {T : Type} (o : optional T) : optional T :=
  { o with stg := { value := none }, log := o.log ++ [{ op := Op.destroy, ok := true }] }

/-- A completed placement new `new (&stg.value) T(...)` that produced `t`. -/
def optional.placement_new {T : Type} (o : optional T) (k : Op) (t : T) : optional T :=
  { o with stg := { value := some t }, log := o.log ++ [{ op := k, ok := true }] }

/-- A placement new whose constructor threw: no object is created. -/
def optional.failed_new {T : Type} (o : optional T) (k : Op) : optional T :=
  { o with log := o.log ++ [{ op := k, ok := false }] }

/-- A call of an assignment operator of `T` on the live value, which leaves
it in state `t`; `ok = false` when the assignment threw. -/
def optional.assigned {T : Type} (o : optional T) (k : Op) (ok : Bool) (t : T) : optional T :=
  { o with stg := { value := some t }, log := o.log ++ [{ op := k, ok := ok }] }

/-- The statement `has_value_ = b`. -/
def optional.set_has_value {T : Type} (o : optional T) (b : Bool) : optional T :=
  { o with has_value_ := b }

/-- The members as `copy_base() = default` leaves them: `stg` built by
`storage()`, `has_value_ = false`. -/
def optional.fresh {T : Type} : optional T :=
  { stg := storage.empty, has_value_ := false, log := [] }

/-- The statement `this->stg.value` read as a value: the `T` living in the
cell, `none` when there is none (the read is then undefined behaviour). -/
def optional.read_value {T : Type} (o : optional T) : Option T :=
  o.stg.value

/-! ## `copy_base`, specialisation for a `T` that is not trivially copyable -/

namespace copy_base_nontrivial

/-- The constructor `copy_base(in_place_t, Args &&... args)`, whose
initialisers are `stg(std::forward<Args>(args)...), has_value_(true)`. For an
empty argument list the first is `stg()`, for which overload resolution takes
the non-template `storage()` before the template `storage(Args &&...)`: no `T`
is constructed, and the flag is set all the same. For a non-empty list
`storage(Args &&...)` constructs `value`. -/
def in_place {T Args E : Type} (H : HeldType T Args E) (a : Init T Args) :
    Result E (optional T) :=
  noexcept_if (H.init_nothrow a)
    (if a.is_empty then .returned (optional.fresh.set_has_value true)
     else
       match H.init a with
       | .ok t => .returned ((optional.fresh.placement_new a.op t).set_has_value true)
       | .error e => .threw e)

/-- The constructor `copy_base(copy_base &&other)`: the new object, if the
constructor completed, and the state of `other` afterwards. -/
def move_ctor {T Args E : Type} (H : HeldType T Args E) (other : optional T) :
    Result E (optional T) × optional T :=
  if other.has_value_ then
    match other.read_value with
    | some y =>
      match H.move_construct y with
      | (.ok t, y1) =>
        (.returned ((optional.fresh.placement_new Op.move_construct t).set_has_value
            other.has_value_),
          { other with stg := { value := some y1 } })
      | (.error e, y1) =>
        (noexcept_if H.is_nothrow_move_constructible (.threw e),
          { other with stg := { value := some y1 } })
    | none => (.undefined, other)
  else
    (.returned (optional.fresh.set_has_value other.has_value_), other)

/-- The constructor `copy_base(const copy_base &other)`. -/
def copy_ctor {T Args E : Type} (H : HeldType T Args E) (other : optional T) :
    Result E (optional T) :=
  if other.has_value_ then
    match other.read_value with
    | some y =>
      match H.copy_construct y with
      | .ok t =>
        .returned ((optional.fresh.placement_new Op.copy_construct t).set_has_value
          other.has_value_)
      | .error e => noexcept_if H.is_nothrow_copy_constructible (.threw e)
    | none => .undefined
  else
    .returned (optional.fresh.set_has_value other.has_value_)

/-- The operator `copy_base &operator=(const copy_base &other)`: the outcome
and the state of `*this` afterwards. -/
def copy_assign {T Args E : Type} (H : HeldType T Args E) (self other : optional T) :
    Result E Unit × optional T :=
  if other.has_value_ then
    if self.has_value_ then
      match self.read_value, other.read_value with
      | some x, some y =>
        match H.copy_assign x y with
        | (none, x1) =>
          (.returned (), (self.assigned Op.copy_assign true x1).set_has_value other.has_value_)
        | (some e, x1) =>
          (noexcept_if (H.is_nothrow_copy_constructible && H.is_nothrow_copy_assignable)
              (.threw e),
            self.assigned Op.copy_assign false x1)
      | _, _ => (.undefined, self)
    else
      match other.read_value with
      | some y =>
        match H.copy_construct y with
        | .ok t =>
          (.returned (),
            (self.placement_new Op.copy_construct t).set_has_value other.has_value_)
        | .error e =>
          (noexcept_if (H.is_nothrow_copy_constructible && H.is_nothrow_copy_assignable)
              (.threw e),
            self.failed_new Op.copy_construct)
      | none => (.undefined, self)
  else if self.has_value_ then
    (.returned (), self.destroy_value.set_has_value other.has_value_)
  else
    (.returned (), self.set_has_value other.has_value_)

/-- The operator `copy_base &operator=(copy_base &&other)`: the outcome, the
state of `*this` and the state of `other` afterwards. -/
def move_assign {T Args E : Type} (H : HeldType T Args E) (self other : optional T) :
    Result E Unit × optional T × optional T :=
  if other.has_value_ then
    if self.has_value_ then
      match self.read_value, other.read_value with
      | some x, some y =>
        match H.move_assign x y with
        | (none, x1, y1) =>
          (.returned (),
            (self.assigned Op.move_assign true x1).set_has_value other.has_value_,
            { other with stg := { value := some y1 } })
        | (some e, x1, y1) =>
          (noexcept_if (H.is_nothrow_move_constructible && H.is_nothrow_move_assignable)
              (.threw e),
            self.assigned Op.move_assign false x1,
            { other with stg := { value := some y1 } })
      | _, _ => (.undefined, self, other)
    else
      match other.read_value with
      | some y =>
        match H.move_construct y with
        | (.ok t, y1) =>
          (.returned (),
            (self.placement_new Op.move_construct t).set_has_value other.has_value_,
            { other with stg := { value := some y1 } })
        | (.error e, y1) =>
          (noexcept_if (H.is_nothrow_move_constructible && H.is_nothrow_move_assignable)
              (.threw e),
            self.failed_new Op.move_construct,
            { other with stg := { value := some y1 } })
      | none => (.undefined, self, other)
  else if self.has_value_ then
    (.returned (), self.destroy_value.set_has_value other.has_value_, other)
  else
    (.returned (), self.set_has_value other.has_value_, other)

/-- The member `void reset() noexcept`. -/
def reset {T : Type} (o : optional T) : optional T :=
  if o.has_value_ then o.destroy_value.set_has_value false else o

/-- The member `void emplace(Args &&... args)`: the outcome and the state of
`*this` afterwards. -/
def emplace {T Args E : Type} (H : HeldType T Args E) (a : Init T Args) (o : optional T) :
    Result E Unit × optional T :=
  match H.init a with
  | .ok t => (.returned (), ((reset o).placement_new a.op t).set_has_value true)
  | .error e => (noexcept_if (H.init_nothrow a) (.threw e), (reset o).failed_new a.op)

end copy_base_nontrivial

/-! ## `copy_base`, specialisation for a trivially copyable `T` -/

namespace copy_base_trivial

/-- The constructor `copy_base(in_place_t, Args &&... args)`, whose
initialisers are `stg(std::forward<Args>(args)...), has_value_(true)`. For an
empty argument list the first is `stg()`, for which overload resolution takes
the non-template `storage()` before the template `storage(Args &&...)`: no `T`
is constructed, and the flag is set all the same. For a non-empty list
`storage(Args &&...)` constructs `value`. -/
def in_place {T Args E : Type} (H : HeldType T Args E) (a : Init T Args) :
    Result E (optional T) :=
  noexcept_if (H.init_nothrow a)
    (if a.is_empty then .returned (optional.fresh.set_has_value true)
     else
       match H.init a with
       | .ok t => .returned ((optional.fresh.placement_new a.op t).set_has_value true)
       | .error e => .threw e)

/-- The defaulted `copy_base(const copy_base &)` and `copy_base(copy_base &&)`:
both members are copied as they are. -/
def copy_ctor {T : Type} (other : optional T) : optional T :=
  { stg := other.stg
    has_value_ := other.has_value_
    log := if other.stg.value.isSome then [{ op := Op.implicit_begin, ok := true }] else [] }

/-- The defaulted `operator=(const copy_base &)` and `operator=(copy_base &&)`:
both members are overwritten with those of `other`. A `T` that lived in the
cell ends without a destructor call, and a copy of the `T` of `other`, if any,
begins. -/
def assign {T : Type} (self other : optional T) : optional T :=
  { stg := other.stg
    has_value_ := other.has_value_
    log := self.log
      ++ (if self.stg.value.isSome then [{ op := Op.implicit_end, ok := true }] else [])
      ++ (if other.stg.value.isSome then [{ op := Op.implicit_begin, ok := true }] else []) }

/-- The member `void reset() noexcept`. -/
def reset {T : Type} (o : optional T) : optional T :=
  if o.has_value_ then o.destroy_value.set_has_value false else o

/-- The member `void emplace(Args &&... args)`. -/
def emplace {T Args E : Type} (H : HeldType T Args E) (a : Init T Args) (o : optional T) :
    Result E Unit × optional T :=
  match H.init a with
  | .ok t => (.returned (), ((reset o).placement_new a.op t).set_has_value true)
  | .error e => (noexcept_if (H.init_nothrow a) (.threw e), (reset o).failed_new a.op)

end copy_base_trivial

/-! ## `storage` teardown and `destroy_base` -/

/-- The destructor of `storage<T>`. For a `T` that is not trivially
destructible it is `~storage() {}`, which touches nothing. For a trivially
destructible `T` it is the implicit one: the `T` in the cell, if any, ends
with its storage, without any call. -/
def storage_dtor {T Args E : Type} (H : HeldType T Args E) (o : optional T) : optional T :=
  if H.is_trivially_destructible then
    if o.stg.value.isSome then
      { o with stg := { value := none },
               log := o.log ++ [{ op := Op.implicit_end, ok := true }] }
    else o
  else o

namespace destroy_base

/-- The member `reset` that `destroy_base<T>` inherits from `copy_base<T>`. -/
def reset {T Args E : Type} (H : HeldType T Args E) (o : optional T) : optional T :=
  if H.is_trivially_copyable then copy_base_trivial.reset o else copy_base_nontrivial.reset o

/-- The destructor `~destroy_base()`: defaulted when `T` is trivially
destructible, `this->reset()` otherwise; the members are destroyed after the
body. The result is the final state of the object, kept for its log. -/
def dtor {T Args E : Type} (H : HeldType T Args E) (o : optional T) : optional T :=
  if H.is_trivially_destructible then storage_dtor H o
  else storage_dtor H (reset H o)

end destroy_base

/-! ## The public class `optional<T>` -/

namespace optional

/-- The constructor `optional() = default`. -/
def default_ctor {T : Type} : optional T :=
  optional.fresh

/-- The constructor `optional(nullopt_t) noexcept : optional() {}`. -/
def nullopt_ctor {T : Type} : optional T :=
  default_ctor

/-- The constructor `optional(in_place_t, Args &&... args)`, which passes its
arguments on to the constructor of `copy_base<T>` that `destroy_base<T>`
inherits. -/
def in_place_ctor {T Args E : Type} (H : HeldType T Args E) (a : Init T Args) :
    Result E (optional T) :=
  noexcept_if (H.init_nothrow a)
    (if H.is_trivially_copyable then copy_base_trivial.in_place H a
     else copy_base_nontrivial.in_place H a)

/-- The constructor
`optional(T value) noexcept(std::is_move_constructible_v<T>) : optional(in_place, std::move(value))`. -/
def value_ctor {T Args E : Type} (H : HeldType T Args E) (value : T) :
    Result E (optional T) :=
  noexcept_if H.is_move_constructible (in_place_ctor H (Init.rvalue value))

/-- The defaulted `optional(const optional &)`, which copies the base with the
copy constructor of `copy_base<T>`. (The `destroy_base` specialisation for a
trivially destructible `T` declares its assignment operators but, unlike its
sibling, no copy or move constructor, which leaves these two constructors of
`optional<T>` deleted for such a `T`; the embedding gives them the behaviour
of the `copy_base` constructor for every `T`.) -/
def copy_ctor {T Args E : Type} (H : HeldType T Args E) (other : optional T) :
    Result E (optional T) :=
  if H.is_trivially_copyable then .returned (copy_base_trivial.copy_ctor other)
  else copy_base_nontrivial.copy_ctor H other

/-- The defaulted `optional(optional &&)`: the new object and the state of
`other` afterwards. -/
def move_ctor {T Args E : Type} (H : HeldType T Args E) (other : optional T) :
    Result E (optional T) × optional T :=
  if H.is_trivially_copyable then (.returned (copy_base_trivial.copy_ctor other), other)
  else copy_base_nontrivial.move_ctor H other

/-- The defaulted `optional &operator=(const optional &)`: the outcome and the
state of `*this` afterwards; `other` is not written. -/
def copy_assign {T Args E : Type} (H : HeldType T Args E) (self other : optional T) :
    Result E Unit × optional T :=
  if H.is_trivially_copyable then (.returned (), copy_base_trivial.assign self other)
  else copy_base_nontrivial.copy_assign H self other

/-- The defaulted `optional &operator=(optional &&)`: the outcome, the state
of `*this` and the state of `other` afterwards. -/
def move_assign {T Args E : Type} (H : HeldType T Args E) (self other : optional T) :
    Result E Unit × optional T × optional T :=
  if H.is_trivially_copyable then (.returned (), copy_base_trivial.assign self other, other)
  else copy_base_nontrivial.move_assign H self other

/-- The member `reset`, from `using base_t::reset`. -/
def reset {T Args E : Type} (H : HeldType T Args E) (o : optional T) : optional T :=
  destroy_base.reset H o

/-- The member `emplace`, from `using base_t::emplace`. -/
def emplace {T Args E : Type} (H : HeldType T Args E) (a : Init T Args) (o : optional T) :
    Result E Unit × optional T :=
  if H.is_trivially_copyable then copy_base_trivial.emplace H a o
  else copy_base_nontrivial.emplace H a o

/-- The operator `optional &operator=(nullopt_t) noexcept`. -/
def assign_nullopt {T Args E : Type} (H : HeldType T Args E) (o : optional T) : optional T :=
  reset H o

/-- The member `has_value()`. -/
def has_value {T : Type} (o : optional T) : Bool :=
  o.has_value_

/-- The conversion `explicit operator bool()`. -/
def operator_bool {T : Type} (o : optional T) : Bool :=
  has_value o

/-- The operator `operator*()` followed by a read of the referenced `T`. It
makes no check: on a cell without a live `T` the read is undefined, `none`. -/
def deref {T : Type} (o : optional T) : Option T :=
  o.read_value

/-- The destructor of `optional<T>`, which is that of `destroy_base<T>`. -/
def dtor {T Args E : Type} (H : HeldType T Args E) (o : optional T) : optional T :=
  destroy_base.dtor H o

end optional

/-! ## Relational operators

Each returns `none` when its evaluation reads an operand whose cell holds no
live `T`. The evaluation order and short-circuiting of `&&` and `||` are
those of the header. -/

/-- The operator `a == b`:
`a.has_value() == b.has_value() && (!a || *a == *b)`. -/
def operator_eq {T Args E : Type} (H : HeldType T Args E) (a b : optional T) : Option Bool :=
  if a.has_value = b.has_value then
    if !a.operator_bool then some true
    else
      match a.deref, b.deref with
      | some x, some y => some (H.eq x y)
      | _, _ => none
  else some false

/-- The operator `a != b`: `!(a == b)`. -/
def operator_ne {T Args E : Type} (H : HeldType T Args E) (a b : optional T) : Option Bool :=
  (operator_eq H a b).map (fun r => !r)

/-- The operator `a < b`: `(a && *a < *b) || (!a && b)`. -/
def operator_lt {T Args E : Type} (H : HeldType T Args E) (a b : optional T) : Option Bool :=
  if a.operator_bool then
    match a.deref, b.deref with
    | some x, some y =>
      if H.lt x y then some true
      else if !a.operator_bool then some b.operator_bool else some false
    | _, _ => none
  else if !a.operator_bool then some b.operator_bool else some false

/-- The operator `a <= b`: `a == b || a < b`. -/
def operator_le {T Args E : Type} (H : HeldType T Args E) (a b : optional T) : Option Bool :=
  match operator_eq H a b with
  | some true => some true
  | some false => operator_lt H a b
  | none => none

/-- The operator `a > b`: `!(a <= b)`. -/
def operator_gt {T Args E : Type} (H : HeldType T Args E) (a b : optional T) : Option Bool :=
  (operator_le H a b).map (fun r => !r)

/-- The operator `a >= b`: `!(a < b)`. -/
def operator_ge {T Args E : Type} (H : HeldType T Args E) (a b : optional T) : Option Bool :=
  (operator_lt H a b).map (fun r => !r)

/-! ## The class invariant -/

/-- The presence-flag invariant of one optional: the flag is set exactly when
a `T` lives in the cell, and the cell has seen one more lifetime begin than
end when the flag is set, and as many when it is clear. -/
def optional.Inv {T : Type} (o : optional T) : Prop :=
  o.stg.value.isSome = o.has_value_ ∧
  constructions o.log = destructions o.log + (if o.has_value_ then 1 else 0)

instance {T : Type} (o : optional T) : Decidable o.Inv := by
  unfold optional.Inv
  exact inferInstance

/-! ## Programs: sequences of public operations -/

/-- One public operation on the optionals of a program. Objects are named by
their index in the order of construction. -/
inductive Cmd (T : Type) (Args : Type) where
  | default_construct
  | nullopt_construct
  | value_construct (v : T)
  | in_place_construct (a : Init T Args)
  | copy_construct (src : Nat)
  | move_construct (src : Nat)
  | emplace (i : Nat) (a : Init T Args)
  | reset (i : Nat)
  | assign_nullopt (i : Nat)
  | copy_assign (dst src : Nat)
  | move_assign (dst src : Nat)

/-- The optionals a program has constructed so far; `halted` once
`std::terminate` was called or the behaviour became undefined. -/
structure World (T : Type) where
  objs : List (optional T)
  halted : Bool

/-- The world before the first operation. -/
def World.init {T : Type} : World T :=
  { objs := [], halted := false }

/-- The caller after a constructor call: a completed constructor adds its
object, one that threw adds none (the caller catches and goes on). -/
def World.construct {T E : Type} (w : World T) : Result E (optional T) → World T
  | .returned o => { w with objs := w.objs ++ [o] }
  | .threw _ => w
  | .terminated => { w with halted := true }
  | .undefined => { w with halted := true }

/-- The caller after a member call on object `i`, which is left in state `o`. -/
def World.update {T E : Type} (w : World T) (i : Nat) (o : optional T) :
    Result E Unit → World T
  | .returned _ => { w with objs := w.objs.set i o }
  | .threw _ => { w with objs := w.objs.set i o }
  | .terminated => { objs := w.objs.set i o, halted := true }
  | .undefined => { objs := w.objs.set i o, halted := true }

/-- One step of a program. A command that names an object never constructed
does nothing. In `dst = std::move(src)` the source is written back before the
destination, so that a self-assignment leaves the state of `*this`. -/
def exec {T Args E : Type} (H : HeldType T Args E) (w : World T) : Cmd T Args → World T
  | .default_construct =>
    if w.halted then w else w.construct (Result.returned optional.default_ctor : Result E _)
  | .nullopt_construct =>
    if w.halted then w else w.construct (Result.returned optional.nullopt_ctor : Result E _)
  | .value_construct v =>
    if w.halted then w else w.construct (optional.value_ctor H v)
  | .in_place_construct a =>
    if w.halted then w else w.construct (optional.in_place_ctor H a)
  | .copy_construct src =>
    if w.halted then w else
    match w.objs[src]? with
    | some s => w.construct (optional.copy_ctor H s)
    | none => w
  | .move_construct src =>
    if w.halted then w else
    match w.objs[src]? with
    | some s =>
      World.construct { w with objs := w.objs.set src (optional.move_ctor H s).2 }
        (optional.move_ctor H s).1
    | none => w
  | .emplace i a =>
    if w.halted then w else
    match w.objs[i]? with
    | some o => w.update i (optional.emplace H a o).2 (optional.emplace H a o).1
    | none => w
  | .reset i =>
    if w.halted then w else
    match w.objs[i]? with
    | some o => w.update i (optional.reset H o) (Result.returned () : Result E Unit)
    | none => w
  | .assign_nullopt i =>
    if w.halted then w else
    match w.objs[i]? with
    | some o => w.update i (optional.assign_nullopt H o) (Result.returned () : Result E Unit)
    | none => w
  | .copy_assign dst src =>
    if w.halted then w else
    match w.objs[dst]?, w.objs[src]? with
    | some d, some s =>
      w.update dst (optional.copy_assign H d s).2 (optional.copy_assign H d s).1
    | _, _ => w
  | .move_assign dst src =>
    if w.halted then w else
    match w.objs[dst]?, w.objs[src]? with
    | some d, some s =>
      World.update { w with objs := w.objs.set src (optional.move_assign H d s).2.2 }
        dst (optional.move_assign H d s).2.1 (optional.move_assign H d s).1
    | _, _ => w

/-- Runs a program from a given world. -/
def run {T Args E : Type} (H : HeldType T Args E) (cmds : List (Cmd T Args)) (w : World T) :
    World T :=
  cmds.foldl (exec H) w

/-- Does the command construct a `T` in every cell whose flag it sets. Only the
in-place construction from the empty argument list does not. -/
def Cmd.constructs_what_it_flags {T Args : Type} : Cmd T Args → Bool
  | .in_place_construct a => !a.is_empty
  | _ => true

/-- A write through the reference that `operator*()` returns: the caller
replaces the held value `x` of object `i` by `f x`. Only that object's cell is
touched. -/
def World.mutate {T : Type} (w : World T) (i : Nat) (f : T → T) : World T :=
  match w.objs[i]? with
  | some o => { w with objs := w.objs.set i { o with stg := { value := o.stg.value.map f } } }
  | none => w

/-- What is required of the source of a move afterwards: its flag is still
set, the moved-from object `y1` lives in its cell, the invariant holds, and
destroying the optional ends exactly that one lifetime (by one call of `~T()`
when `T` is not trivially destructible) and leaves nothing alive. -/
def optional.MovedFrom {T Args E : Type} (H : HeldType T Args E) (o : optional T) (y1 : T) :
    Prop :=
  o.has_value = true ∧ o.deref = some y1 ∧ o.Inv ∧
  destructions (optional.dtor H o).log = destructions o.log + 1 ∧
  constructions (optional.dtor H o).log = destructions (optional.dtor H o).log ∧
  (optional.dtor H o).stg.value = none ∧
  (H.is_trivially_destructible = false →
    destructor_calls (optional.dtor H o).log = destructor_calls o.log + 1)

/-- What a caller can observe of an optional: its presence and, when it is
present, the held value. -/
def optional.observe {T : Type} (o : optional T) : Bool × Option T :=
  (o.has_value, if o.has_value then o.deref else none)

/-- The log of a cell records calls into `T` only: no lifetime began or ended
in it without a constructor or destructor call. -/
def optional.ExplicitOnly {T : Type} (o : optional T) : Prop :=
  ∀ e ∈ o.log, e.op ≠ Op.implicit_begin ∧ e.op ≠ Op.implicit_end

/-- Number of completed constructor calls of `T` in the cell. -/
def constructor_calls (log : List Event) : Nat :=
  log.countP (fun e => e.ok &&
    (e.op = Op.construct || e.op = Op.copy_construct || e.op = Op.move_construct))

/-! ## Sample held types -/

/-- The held type `int`: trivially copyable, nothing can fail. -/
def int_type : HeldType Int Int Nat where
  default_construct := .ok 0
  construct := fun a => .ok a
  copy_construct := fun x => .ok x
  move_construct := fun x => (.ok x, x)
  copy_assign := fun _ y => (none, y)
  move_assign := fun _ y => (none, y, y)
  eq := fun x y => decide (x = y)
  lt := fun x y => decide (x < y)
  has_trivial_copy_operations := true
  is_trivially_destructible := true
  is_nothrow_default_constructible := true
  is_nothrow_constructible := true
  is_nothrow_copy_constructible := true
  is_nothrow_move_constructible := true
  is_nothrow_copy_assignable := true
  is_nothrow_move_assignable := true
  is_move_constructible := true

/-- A held type like `std::string`, its value the list of character codes:
not trivially copyable, a move leaves the source empty, nothing fails. -/
def string_type : HeldType (List Nat) (List Nat) Nat where
  default_construct := .ok []
  construct := fun a => .ok a
  copy_construct := fun x => .ok x
  move_construct := fun x => (.ok x, [])
  copy_assign := fun _ y => (none, y)
  move_assign := fun _ y => (none, y, [])
  eq := fun x y => decide (x = y)
  lt := fun x y => decide (x < y)
  has_trivial_copy_operations := false
  is_trivially_destructible := false
  is_nothrow_default_constructible := false
  is_nothrow_constructible := false
  is_nothrow_copy_constructible := false
  is_nothrow_move_constructible := true
  is_nothrow_copy_assignable := false
  is_nothrow_move_assignable := true
  is_move_constructible := true

/-- A held type that wraps a number and whose operations can all throw:
construction from `0` throws `1`, copy construction of a value above `99`
throws `2`, move construction of `13` throws `3`, copy assignment of a value
above `99` throws `4`, move assignment of `13` throws `5`. A move leaves `0`
in the source, and default construction gives `1`. None of its operations is
declared `noexcept`. -/
def throwing_type : HeldType Nat Nat Nat where
  default_construct := .ok 1
  construct := fun a => if a = 0 then .error 1 else .ok a
  copy_construct := fun x => if 100 ≤ x then .error 2 else .ok x
  move_construct := fun x => if x = 13 then (.error 3, x) else (.ok x, 0)
  copy_assign := fun x y => if 100 ≤ y then (some 4, x) else (none, y)
  move_assign := fun x y => if y = 13 then (some 5, x, y) else (none, y, 0)
  eq := fun x y => decide (x = y)
  lt := fun x y => decide (x < y)
  has_trivial_copy_operations := false
  is_trivially_destructible := false
  is_nothrow_default_constructible := false
  is_nothrow_constructible := false
  is_nothrow_copy_constructible := false
  is_nothrow_move_constructible := false
  is_nothrow_copy_assignable := false
  is_nothrow_move_assignable := false
  is_move_constructible := true

/-! ## Counting lemmas -/

theorem constructions_nil : constructions [] = 0 := rfl

theorem destructions_nil : destructions [] = 0 := rfl

theorem constructions_append (l m : List Event) :
    constructions (l ++ m) = constructions l + constructions m := by
  simp [constructions, List.countP_append]

theorem destructions_append (l m : List Event) :
    destructions (l ++ m) = destructions l + destructions m := by
  simp [destructions, List.countP_append]

theorem destructor_calls_append (l m : List Event) :
    destructor_calls (l ++ m) = destructor_calls l + destructor_calls m := by
  simp [destructor_calls, List.countP_append]

theorem constructions_single (k : Op) (b : Bool) :
    constructions [{ op := k, ok := b }] = if b && k.begins then 1 else 0 := by
  by_cases h : (b && k.begins) = true <;> simp [constructions, List.countP_cons, h]

theorem destructions_single (k : Op) (b : Bool) :
    destructions [{ op := k, ok := b }] = if k.ends then 1 else 0 := by
  by_cases h : k.ends = true <;> simp [destructions, List.countP_cons, h]

theorem init_op_begins {T Args : Type} (a : Init T Args) : a.op.begins = true := by
  cases a <;> rfl

theorem init_op_ends {T Args : Type} (a : Init T Args) : a.op.ends = false := by
  cases a <;> rfl

/-! ## The invariant is kept by every operation -/

theorem inv_fresh {T : Type} : (optional.fresh : optional T).Inv := by
  simp [optional.Inv, optional.fresh, storage.empty, constructions, destructions]

theorem inv_reset_nontrivial {T : Type} (o : optional T) (h : o.Inv) :
    (copy_base_nontrivial.reset o).Inv := by
  unfold copy_base_nontrivial.reset
  split
  · rename_i hv
    simp only [optional.Inv, hv] at h
    simp [optional.Inv, optional.destroy_value, optional.set_has_value,
      constructions_append, destructions_append, constructions_single, destructions_single,
      Op.begins, Op.ends, h.2]
  · exact h

theorem inv_placement_new {T : Type} (o : optional T) (k : Op) (t : T) (b : Bool)
    (h : o.Inv) (hv : o.has_value_ = false) (hk : k.begins = true) (hk2 : k.ends = false)
    (hb : b = true) : ((o.placement_new k t).set_has_value b).Inv := by
  subst hb
  simp only [optional.Inv, hv] at h
  simp [optional.Inv, optional.placement_new, optional.set_has_value,
    constructions_append, destructions_append, constructions_single, destructions_single,
    hk, hk2, h.2]

theorem inv_failed_new {T : Type} (o : optional T) (k : Op) (h : o.Inv)
    (hk2 : k.ends = false) : (o.failed_new k).Inv := by
  simp only [optional.Inv] at h
  simp [optional.Inv, optional.failed_new,
    constructions_append, destructions_append, constructions_single, destructions_single,
    hk2, h.1, h.2]

theorem inv_assigned {T : Type} (o : optional T) (k : Op) (ok : Bool) (t : T)
    (h : o.Inv) (hv : o.has_value_ = true) (hk : k.begins = false) (hk2 : k.ends = false) :
    (o.assigned k ok t).Inv := by
  simp only [optional.Inv, hv] at h
  simp [optional.Inv, optional.assigned,
    constructions_append, destructions_append, constructions_single, destructions_single,
    hk, hk2, hv, h.2]

theorem inv_destroy {T : Type} (o : optional T) (b : Bool) (h : o.Inv)
    (hv : o.has_value_ = true) (hb : b = false) :
    (o.destroy_value.set_has_value b).Inv := by
  subst hb
  simp only [optional.Inv, hv] at h
  simp [optional.Inv, optional.destroy_value, optional.set_has_value,
    constructions_append, destructions_append, constructions_single, destructions_single,
    Op.begins, Op.ends, h.2]

theorem inv_set_same {T : Type} (o : optional T) (b : Bool) (h : o.Inv)
    (hb : o.has_value_ = b) : (o.set_has_value b).Inv := by
  subst hb
  exact h

theorem inv_moved_from {T : Type} (o : optional T) (y : T) (h : o.Inv)
    (hv : o.has_value_ = true) : optional.Inv { o with stg := { value := some y } } := by
  simp only [optional.Inv, hv] at h
  simp [optional.Inv, hv, h.2]

theorem inv_emplace_nontrivial {T Args E : Type} (H : HeldType T Args E) (a : Init T Args)
    (o : optional T) (h : o.Inv) : (copy_base_nontrivial.emplace H a o).2.Inv := by
  have hr := inv_reset_nontrivial o h
  have hf : (copy_base_nontrivial.reset o).has_value_ = false := by
    unfold copy_base_nontrivial.reset
    split
    · rfl
    · simpa using ‹¬ o.has_value_ = true›
  unfold copy_base_nontrivial.emplace
  split
  · exact inv_placement_new _ _ _ _ hr hf (init_op_begins a) (init_op_ends a) rfl
  · exact inv_failed_new _ _ hr (init_op_ends a)

theorem inv_copy_assign_nontrivial {T Args E : Type} (H : HeldType T Args E)
    (self other : optional T) (h : self.Inv) :
    (copy_base_nontrivial.copy_assign H self other).2.Inv := by
  unfold copy_base_nontrivial.copy_assign
  split
  · rename_i ho
    split
    · rename_i hs
      split
      · split
        · exact inv_set_same _ _ (inv_assigned _ _ _ _ h hs rfl rfl) (by simp [optional.assigned, hs, ho])
        · exact inv_assigned _ _ _ _ h hs rfl rfl
      · exact h
    · rename_i hs
      split
      · split
        · exact inv_placement_new _ _ _ _ h (by simpa using hs) rfl rfl ho
        · exact inv_failed_new _ _ h rfl
      · exact h
  · rename_i ho
    split
    · rename_i hs
      exact inv_destroy _ _ h hs (by simpa using ho)
    · rename_i hs
      exact inv_set_same _ _ h (by simp at hs ho; simp [hs, ho])

theorem inv_move_assign_nontrivial {T Args E : Type} (H : HeldType T Args E)
    (self other : optional T) (h : self.Inv) :
    (copy_base_nontrivial.move_assign H self other).2.1.Inv := by
  unfold copy_base_nontrivial.move_assign
  split
  · rename_i ho
    split
    · rename_i hs
      split
      · split
        · exact inv_set_same _ _ (inv_assigned _ _ _ _ h hs rfl rfl) (by simp [optional.assigned, hs, ho])
        · exact inv_assigned _ _ _ _ h hs rfl rfl
      · exact h
    · rename_i hs
      split
      · split
        · exact inv_placement_new _ _ _ _ h (by simpa using hs) rfl rfl ho
        · exact inv_failed_new _ _ h rfl
      · exact h
  · rename_i ho
    split
    · rename_i hs
      exact inv_destroy _ _ h hs (by simpa using ho)
    · rename_i hs
      exact inv_set_same _ _ h (by simp at hs ho; simp [hs, ho])

theorem inv_move_assign_source_nontrivial {T Args E : Type} (H : HeldType T Args E)
    (self other : optional T) (h : other.Inv) :
    (copy_base_nontrivial.move_assign H self other).2.2.Inv := by
  unfold copy_base_nontrivial.move_assign
  split
  · rename_i ho
    split
    · split
      · split
        · exact inv_moved_from _ _ h ho
        · exact inv_moved_from _ _ h ho
      · exact h
    · split
      · split
        · exact inv_moved_from _ _ h ho
        · exact inv_moved_from _ _ h ho
      · exact h
  · split <;> exact h

theorem noexcept_if_returned {E α : Type} (c : Bool) (r : Result E α) (a : α)
    (h : noexcept_if c r = .returned a) : r = .returned a := by
  cases r <;> simp [noexcept_if] at h ⊢
  · exact h
  · split at h <;> simp at h

theorem inv_in_place_nontrivial {T Args E : Type} (H : HeldType T Args E) (a : Init T Args)
    (o : optional T) (hne : a.is_empty = false)
    (h : copy_base_nontrivial.in_place H a = .returned o) : o.Inv := by
  unfold copy_base_nontrivial.in_place at h
  have h1 := noexcept_if_returned _ _ _ h
  simp only [hne, Bool.false_eq_true, if_false] at h1
  split at h1
  · simp only [Result.returned.injEq] at h1
    subst h1
    exact inv_placement_new _ _ _ _ inv_fresh rfl (init_op_begins a) (init_op_ends a) rfl
  · simp at h1

theorem inv_in_place_trivial {T Args E : Type} (H : HeldType T Args E) (a : Init T Args)
    (o : optional T) (hne : a.is_empty = false)
    (h : copy_base_trivial.in_place H a = .returned o) : o.Inv :=
  inv_in_place_nontrivial H a o hne h

theorem inv_copy_ctor_nontrivial {T Args E : Type} (H : HeldType T Args E)
    (other o : optional T) (h : copy_base_nontrivial.copy_ctor H other = .returned o) :
    o.Inv := by
  unfold copy_base_nontrivial.copy_ctor at h
  split at h
  · rename_i ho
    split at h
    · split at h
      · simp only [Result.returned.injEq] at h
        subst h
        exact inv_placement_new _ _ _ _ inv_fresh rfl rfl rfl ho
      · exact absurd (noexcept_if_returned _ _ _ h) (by simp)
    · simp at h
  · rename_i ho
    simp only [Result.returned.injEq] at h
    subst h
    exact inv_set_same _ _ inv_fresh (by simp at ho; simp [optional.fresh, ho])

theorem inv_move_ctor_nontrivial {T Args E : Type} (H : HeldType T Args E)
    (other o : optional T) (h : (copy_base_nontrivial.move_ctor H other).1 = .returned o) :
    o.Inv := by
  unfold copy_base_nontrivial.move_ctor at h
  split at h
  · rename_i ho
    split at h
    · split at h
      · simp only [Result.returned.injEq] at h
        subst h
        exact inv_placement_new _ _ _ _ inv_fresh rfl rfl rfl ho
      · simp only at h
        exact absurd (noexcept_if_returned _ _ _ h) (by simp)
    · simp at h
  · rename_i ho
    simp only [Result.returned.injEq] at h
    subst h
    exact inv_set_same _ _ inv_fresh (by simp at ho; simp [optional.fresh, ho])

theorem inv_move_ctor_source_nontrivial {T Args E : Type} (H : HeldType T Args E)
    (other : optional T) (h : other.Inv) :
    (copy_base_nontrivial.move_ctor H other).2.Inv := by
  unfold copy_base_nontrivial.move_ctor
  split
  · rename_i ho
    split
    · split
      · exact inv_moved_from _ _ h ho
      · exact inv_moved_from _ _ h ho
    · exact h
  · exact h

theorem inv_copy_ctor_trivial {T : Type} (other : optional T) (h : other.Inv) :
    (copy_base_trivial.copy_ctor other).Inv := by
  obtain ⟨h1, _⟩ := h
  cases hv : other.has_value_ <;>
    simp [optional.Inv, copy_base_trivial.copy_ctor, h1, hv, constructions, destructions,
      Op.begins, Op.ends]

theorem inv_assign_trivial {T : Type} (self other : optional T) (hs : self.Inv)
    (ho : other.Inv) : (copy_base_trivial.assign self other).Inv := by
  obtain ⟨h1, h2⟩ := hs
  obtain ⟨h3, _⟩ := ho
  refine ⟨h3, ?_⟩
  show constructions (self.log ++ _ ++ _) = destructions (self.log ++ _ ++ _)
    + (if other.has_value_ = true then 1 else 0)
  rw [constructions_append, constructions_append, destructions_append, destructions_append,
    h1, h3, h2]
  cases other.has_value_ <;> cases self.has_value_ <;>
    simp [constructions_single, destructions_single, Op.begins, Op.ends,
      constructions_nil, destructions_nil]

theorem inv_reset_trivial {T : Type} (o : optional T) (h : o.Inv) :
    (copy_base_trivial.reset o).Inv :=
  inv_reset_nontrivial o h

theorem inv_emplace_trivial {T Args E : Type} (H : HeldType T Args E) (a : Init T Args)
    (o : optional T) (h : o.Inv) : (copy_base_trivial.emplace H a o).2.Inv :=
  inv_emplace_nontrivial H a o h

/-! ### The public operations -/

theorem inv_default_ctor {T : Type} : (optional.default_ctor : optional T).Inv :=
  inv_fresh

theorem inv_optional_reset {T Args E : Type} (H : HeldType T Args E) (o : optional T)
    (h : o.Inv) : (optional.reset H o).Inv := by
  unfold optional.reset destroy_base.reset
  split
  · exact inv_reset_trivial o h
  · exact inv_reset_nontrivial o h

theorem inv_optional_emplace {T Args E : Type} (H : HeldType T Args E) (a : Init T Args)
    (o : optional T) (h : o.Inv) : (optional.emplace H a o).2.Inv := by
  unfold optional.emplace
  split
  · exact inv_emplace_trivial H a o h
  · exact inv_emplace_nontrivial H a o h

theorem inv_optional_in_place {T Args E : Type} (H : HeldType T Args E) (a : Init T Args)
    (o : optional T) (hne : a.is_empty = false)
    (h : optional.in_place_ctor H a = .returned o) : o.Inv := by
  unfold optional.in_place_ctor at h
  have h1 := noexcept_if_returned _ _ _ h
  split at h1
  · exact inv_in_place_trivial H a o hne h1
  · exact inv_in_place_nontrivial H a o hne h1

theorem inv_optional_value_ctor {T Args E : Type} (H : HeldType T Args E) (v : T)
    (o : optional T) (h : optional.value_ctor H v = .returned o) : o.Inv :=
  inv_optional_in_place H (Init.rvalue v) o rfl (noexcept_if_returned _ _ _ h)

theorem inv_optional_copy_ctor {T Args E : Type} (H : HeldType T Args E)
    (other o : optional T) (ho : other.Inv) (h : optional.copy_ctor H other = .returned o) :
    o.Inv := by
  unfold optional.copy_ctor at h
  split at h
  · simp only [Result.returned.injEq] at h
    subst h
    exact inv_copy_ctor_trivial other ho
  · exact inv_copy_ctor_nontrivial H other o h

theorem inv_optional_move_ctor {T Args E : Type} (H : HeldType T Args E)
    (other o : optional T) (ho : other.Inv)
    (h : (optional.move_ctor H other).1 = .returned o) : o.Inv := by
  unfold optional.move_ctor at h
  split at h
  · simp only [Result.returned.injEq] at h
    subst h
    exact inv_copy_ctor_trivial other ho
  · exact inv_move_ctor_nontrivial H other o h

theorem inv_optional_move_ctor_source {T Args E : Type} (H : HeldType T Args E)
    (other : optional T) (ho : other.Inv) : (optional.move_ctor H other).2.Inv := by
  unfold optional.move_ctor
  split
  · exact ho
  · exact inv_move_ctor_source_nontrivial H other ho

theorem inv_optional_copy_assign {T Args E : Type} (H : HeldType T Args E)
    (self other : optional T) (hs : self.Inv) (ho : other.Inv) :
    (optional.copy_assign H self other).2.Inv := by
  unfold optional.copy_assign
  split
  · exact inv_assign_trivial self other hs ho
  · exact inv_copy_assign_nontrivial H self other hs

theorem inv_optional_move_assign {T Args E : Type} (H : HeldType T Args E)
    (self other : optional T) (hs : self.Inv) (ho : other.Inv) :
    (optional.move_assign H self other).2.1.Inv := by
  unfold optional.move_assign
  split
  · exact inv_assign_trivial self other hs ho
  · exact inv_move_assign_nontrivial H self other hs

theorem inv_optional_move_assign_source {T Args E : Type} (H : HeldType T Args E)
    (self other : optional T) (ho : other.Inv) :
    (optional.move_assign H self other).2.2.Inv := by
  unfold optional.move_assign
  split
  · exact ho
  · exact inv_move_assign_source_nontrivial H self other ho

/-! ### Programs -/

/-- Every optional of the world satisfies the invariant. -/
def World.AllInv {T : Type} (w : World T) : Prop :=
  ∀ o ∈ w.objs, o.Inv

theorem allInv_init {T : Type} : (World.init : World T).AllInv := by
  intro o ho
  simp [World.init] at ho

theorem allInv_set {T : Type} (l : List (optional T)) (i : Nat) (o : optional T)
    (hl : ∀ x ∈ l, x.Inv) (ho : o.Inv) : ∀ x ∈ l.set i o, x.Inv := by
  intro x hx
  rcases List.mem_or_eq_of_mem_set hx with h | h
  · exact hl x h
  · exact h ▸ ho

theorem allInv_of_getElem {T : Type} (l : List (optional T)) (i : Nat) (o : optional T)
    (hl : ∀ x ∈ l, x.Inv) (h : l[i]? = some o) : o.Inv :=
  hl o (List.getElem?_mem h)

theorem allInv_construct {T E : Type} (w : World T) (r : Result E (optional T))
    (hw : w.AllInv) (hr : ∀ o, r = .returned o → o.Inv) : (w.construct r).AllInv := by
  cases r with
  | returned o =>
    intro x hx
    simp only [World.construct, List.mem_append, List.mem_singleton] at hx
    rcases hx with h | h
    · exact hw x h
    · exact h ▸ hr o rfl
  | threw e => exact hw
  | terminated => exact hw
  | undefined => exact hw

theorem allInv_update {T E : Type} (w : World T) (i : Nat) (o : optional T)
    (r : Result E Unit) (hw : w.AllInv) (ho : o.Inv) : (w.update i o r).AllInv := by
  cases r <;> exact allInv_set _ _ _ hw ho

theorem allInv_exec {T Args E : Type} (H : HeldType T Args E) (w : World T)
    (c : Cmd T Args) (hc : c.constructs_what_it_flags = true) (hw : w.AllInv) :
    (exec H w c).AllInv := by
  cases c with
  | default_construct =>
    simp only [exec]
    split
    · exact hw
    · exact allInv_construct _ _ hw (fun o h => by cases h; exact inv_default_ctor)
  | nullopt_construct =>
    simp only [exec]
    split
    · exact hw
    · exact allInv_construct _ _ hw (fun o h => by cases h; exact inv_default_ctor)
  | value_construct v =>
    simp only [exec]
    split
    · exact hw
    · exact allInv_construct _ _ hw (fun o h => inv_optional_value_ctor H v o h)
  | in_place_construct a =>
    simp only [exec]
    split
    · exact hw
    · exact allInv_construct _ _ hw
        (fun o h => inv_optional_in_place H a o
          (by simpa [Cmd.constructs_what_it_flags] using hc) h)
  | copy_construct src =>
    simp only [exec]
    split
    · exact hw
    · split
      · rename_i s hs
        exact allInv_construct _ _ hw
          (fun o h => inv_optional_copy_ctor H s o (allInv_of_getElem _ _ _ hw hs) h)
      · exact hw
  | move_construct src =>
    simp only [exec]
    split
    · exact hw
    · split
      · rename_i s hs
        have hsi := allInv_of_getElem _ _ _ hw hs
        exact allInv_construct _ _
          (allInv_set _ _ _ hw (inv_optional_move_ctor_source H s hsi))
          (fun o h => inv_optional_move_ctor H s o hsi h)
      · exact hw
  | emplace i a =>
    simp only [exec]
    split
    · exact hw
    · split
      · rename_i o ho
        exact allInv_update _ _ _ _ hw
          (inv_optional_emplace H a o (allInv_of_getElem _ _ _ hw ho))
      · exact hw
  | reset i =>
    simp only [exec]
    split
    · exact hw
    · split
      · rename_i o ho
        exact allInv_update _ _ _ _ hw
          (inv_optional_reset H o (allInv_of_getElem _ _ _ hw ho))
      · exact hw
  | assign_nullopt i =>
    simp only [exec]
    split
    · exact hw
    · split
      · rename_i o ho
        exact allInv_update _ _ _ _ hw
          (inv_optional_reset H o (allInv_of_getElem _ _ _ hw ho))
      · exact hw
  | copy_assign dst src =>
    simp only [exec]
    split
    · exact hw
    · split
      · rename_i d s hd hs
        exact allInv_update _ _ _ _ hw
          (inv_optional_copy_assign H d s (allInv_of_getElem _ _ _ hw hd)
            (allInv_of_getElem _ _ _ hw hs))
      · exact hw
  | move_assign dst src =>
    simp only [exec]
    split
    · exact hw
    · split
      · rename_i d s hd hs
        have hdi := allInv_of_getElem _ _ _ hw hd
        have hsi := allInv_of_getElem _ _ _ hw hs
        exact allInv_update _ _ _ _
          (allInv_set _ _ _ hw (inv_optional_move_assign_source H d s hsi))
          (inv_optional_move_assign H d s hdi hsi)
      · exact hw

theorem allInv_run {T Args E : Type} (H : HeldType T Args E) (cmds : List (Cmd T Args))
    (w : World T) (hcs : ∀ c ∈ cmds, c.constructs_what_it_flags = true) (hw : w.AllInv) :
    (run H cmds w).AllInv := by
  induction cmds generalizing w with
  | nil => exact hw
  | cons c cs ih =>
    exact ih (exec H w c) (fun x hx => hcs x (List.mem_cons_of_mem c hx))
      (allInv_exec H w c (hcs c (List.mem_cons_self c cs)) hw)

theorem optional_emplace_eq {T Args E : Type} (H : HeldType T Args E) (a : Init T Args)
    (o : optional T) : optional.emplace H a o = copy_base_nontrivial.emplace H a o := by
  unfold optional.emplace
  split <;> rfl

theorem optional_reset_eq {T Args E : Type} (H : HeldType T Args E) (o : optional T) :
    optional.reset H o = copy_base_nontrivial.reset o := by
  unfold optional.reset destroy_base.reset
  split <;> rfl

/-! ## Copy -/

theorem copy_ctor_spec {T Args E : Type} (H : HeldType T Args E) (s : optional T)
    (hs : s.Inv) (hcc : ∀ y, s.deref = some y → H.copy_construct y = .ok y) :
    ∃ c, optional.copy_ctor H s = .returned c ∧ c.has_value = s.has_value ∧
      c.deref = s.deref := by
  obtain ⟨⟨sv⟩, sf, sl⟩ := s
  obtain ⟨h1, _⟩ := hs
  simp only at h1
  unfold optional.copy_ctor
  split
  · exact ⟨_, rfl, rfl, rfl⟩
  · cases sv with
    | none =>
      simp only [Option.isSome_none] at h1
      subst h1
      simp only [copy_base_nontrivial.copy_ctor, Bool.false_eq_true, if_false]
      exact ⟨_, rfl, rfl, rfl⟩
    | some y =>
      simp only [Option.isSome_some] at h1
      subst h1
      have := hcc y rfl
      simp only [copy_base_nontrivial.copy_ctor, optional.read_value, this, if_true]
      exact ⟨_, rfl, rfl, rfl⟩

theorem copy_assign_spec {T Args E : Type} (H : HeldType T Args E) (d s : optional T)
    (hd : d.Inv) (hs : s.Inv)
    (hcc : ∀ y, s.deref = some y → H.copy_construct y = .ok y)
    (hca : ∀ x y, d.deref = some x → s.deref = some y → H.copy_assign x y = (none, y)) :
    (optional.copy_assign H d s).1 = .returned () ∧
    (optional.copy_assign H d s).2.has_value = s.has_value ∧
    (optional.copy_assign H d s).2.deref = s.deref := by
  obtain ⟨⟨sv⟩, sf, sl⟩ := s
  obtain ⟨⟨dv⟩, df, dl⟩ := d
  obtain ⟨h1, _⟩ := hs
  obtain ⟨h2, _⟩ := hd
  simp only at h1 h2
  unfold optional.copy_assign
  split
  · exact ⟨rfl, rfl, rfl⟩
  · cases sv with
    | none =>
      simp only [Option.isSome_none] at h1
      subst h1
      cases df <;>
        simp [copy_base_nontrivial.copy_assign, optional.has_value, optional.deref,
          optional.read_value, optional.set_has_value, optional.destroy_value]
      simpa using h2
    | some y =>
      simp only [Option.isSome_some] at h1
      subst h1
      cases dv with
      | none =>
        simp only [Option.isSome_none] at h2
        subst h2
        have := hcc y rfl
        simp [copy_base_nontrivial.copy_assign, optional.has_value, optional.deref,
          optional.read_value, optional.set_has_value, optional.placement_new, this]
      | some x =>
        simp only [Option.isSome_some] at h2
        subst h2
        have := hca x y rfl rfl
        simp [copy_base_nontrivial.copy_assign, optional.has_value, optional.deref,
          optional.read_value, optional.set_has_value, optional.assigned, this]

/-! ### Objects of a program do not share cells -/

theorem lt_length_of_getElem? {α : Type} (l : List α) (i : Nat) (a : α)
    (h : l[i]? = some a) : i < l.length := by
  obtain ⟨hi, _⟩ := List.getElem?_eq_some.mp h
  exact hi

theorem getElem?_set_same {α : Type} (l : List α) (i : Nat) (a b : α)
    (h : l[i]? = some a) : (l.set i b)[i]? = some b :=
  List.getElem?_set_self (lt_length_of_getElem? l i a h)

theorem mutate_other {T : Type} (w : World T) (i j : Nat) (f : T → T) (h : i ≠ j) :
    (w.mutate i f).objs[j]? = w.objs[j]? := by
  unfold World.mutate
  split
  · exact List.getElem?_set_ne h
  · rfl

theorem exec_copy_assign_returned {T Args E : Type} (H : HeldType T Args E) (w : World T)
    (i j : Nat) (d s : optional T) (hw : w.halted = false) (hi : w.objs[i]? = some d)
    (hj : w.objs[j]? = some s) (hr : (optional.copy_assign H d s).1 = .returned ()) :
    exec H w (Cmd.copy_assign i j)
      = { w with objs := w.objs.set i (optional.copy_assign H d s).2 } := by
  simp [exec, hw, hi, hj, hr, World.update]

theorem exec_copy_construct_returned {T Args E : Type} (H : HeldType T Args E)
    (w : World T) (j : Nat) (s c : optional T) (hw : w.halted = false)
    (hj : w.objs[j]? = some s) (hr : optional.copy_ctor H s = .returned c) :
    exec H w (Cmd.copy_construct j) = { w with objs := w.objs ++ [c] } := by
  simp [exec, hw, hj, hr, World.construct]

/-! ## Move -/

theorem movedFrom_of_inv {T Args E : Type} (H : HeldType T Args E) (o : optional T)
    (y1 : T) (hv : o.has_value_ = true) (hy : o.stg.value = some y1) (hi : o.Inv) :
    o.MovedFrom H y1 := by
  refine ⟨hv, hy, hi, ?_⟩
  obtain ⟨_, h2⟩ := hi
  rw [hv] at h2
  unfold optional.dtor destroy_base.dtor storage_dtor destroy_base.reset
    copy_base_trivial.reset copy_base_nontrivial.reset
  cases hd : H.is_trivially_destructible <;> cases hc : H.is_trivially_copyable <;>
    simp [hv, hy, optional.destroy_value, optional.set_has_value, destructions_append,
      constructions_append, destructions_single, constructions_single, Op.begins, Op.ends,
      destructor_calls_append, destructor_calls, h2]

theorem move_ctor_present {T Args E : Type} (H : HeldType T Args E) (s : optional T)
    (y t y1 : T) (hs : s.Inv) (hv : s.has_value = true) (hy : s.deref = some y)
    (htriv : H.is_trivially_copyable = true →
      ∀ x y, H.move_construct y = (.ok y, y) ∧ H.move_assign x y = (none, y, y))
    (hm : H.move_construct y = (.ok t, y1)) :
    (∃ c, (optional.move_ctor H s).1 = .returned c ∧ c.has_value = true ∧
      c.deref = some t) ∧
    (optional.move_ctor H s).2.MovedFrom H y1 := by
  obtain ⟨⟨sv⟩, sf, sl⟩ := s
  simp only [optional.has_value, optional.deref, optional.read_value] at hv hy
  subst hv hy
  unfold optional.move_ctor
  split
  · rename_i hc
    have h := (htriv hc y y).1
    rw [hm] at h
    simp only [Prod.mk.injEq, Except.ok.injEq] at h
    obtain ⟨rfl, rfl⟩ := h
    exact ⟨⟨_, rfl, rfl, rfl⟩, movedFrom_of_inv H _ _ rfl rfl hs⟩
  · simp only [copy_base_nontrivial.move_ctor, optional.read_value, hm, if_true]
    exact ⟨⟨_, rfl, rfl, rfl⟩, movedFrom_of_inv H _ _ rfl rfl (inv_moved_from _ _ hs rfl)⟩

theorem move_assign_into_absent {T Args E : Type} (H : HeldType T Args E)
    (d s : optional T) (y t y1 : T) (hs : s.Inv) (hv : s.has_value = true)
    (hy : s.deref = some y) (hdv : d.has_value = false)
    (htriv : H.is_trivially_copyable = true →
      ∀ x y, H.move_construct y = (.ok y, y) ∧ H.move_assign x y = (none, y, y))
    (hm : H.move_construct y = (.ok t, y1)) :
    (optional.move_assign H d s).1 = .returned () ∧
    (optional.move_assign H d s).2.1.has_value = true ∧
    (optional.move_assign H d s).2.1.deref = some t ∧
    (optional.move_assign H d s).2.2.MovedFrom H y1 := by
  obtain ⟨⟨sv⟩, sf, sl⟩ := s
  obtain ⟨⟨dv⟩, df, dl⟩ := d
  simp only [optional.has_value, optional.deref, optional.read_value] at hv hy hdv
  subst hv hy hdv
  unfold optional.move_assign
  split
  · rename_i hc
    have h := (htriv hc y y).1
    rw [hm] at h
    simp only [Prod.mk.injEq, Except.ok.injEq] at h
    obtain ⟨rfl, rfl⟩ := h
    exact ⟨rfl, rfl, rfl, movedFrom_of_inv H _ _ rfl rfl hs⟩
  · simp only [copy_base_nontrivial.move_assign, optional.read_value, hm, if_true,
      Bool.false_eq_true, if_false]
    exact ⟨trivial, rfl, rfl, movedFrom_of_inv H _ _ rfl rfl (inv_moved_from _ _ hs rfl)⟩

theorem move_assign_into_present {T Args E : Type} (H : HeldType T Args E)
    (d s : optional T) (x y t y1 : T) (hd : d.Inv) (hs : s.Inv) (hv : s.has_value = true)
    (hy : s.deref = some y) (hx : d.deref = some x)
    (htriv : H.is_trivially_copyable = true →
      ∀ x y, H.move_construct y = (.ok y, y) ∧ H.move_assign x y = (none, y, y))
    (hm : H.move_assign x y = (none, t, y1)) :
    (optional.move_assign H d s).1 = .returned () ∧
    (optional.move_assign H d s).2.1.has_value = true ∧
    (optional.move_assign H d s).2.1.deref = some t ∧
    (optional.move_assign H d s).2.2.MovedFrom H y1 := by
  obtain ⟨⟨sv⟩, sf, sl⟩ := s
  obtain ⟨⟨dv⟩, df, dl⟩ := d
  have hdf : df = true := by
    have := hd.1
    simp only [optional.deref, optional.read_value] at hx
    simp only [hx, Option.isSome_some] at this
    exact this.symm
  simp only [optional.has_value, optional.deref, optional.read_value] at hv hy hx
  subst hv hy hx hdf
  unfold optional.move_assign
  split
  · rename_i hc
    have h := (htriv hc x y).2
    rw [hm] at h
    simp only [Prod.mk.injEq] at h
    obtain ⟨_, rfl, rfl⟩ := h
    exact ⟨rfl, rfl, rfl, movedFrom_of_inv H _ _ rfl rfl hs⟩
  · simp only [copy_base_nontrivial.move_assign, optional.read_value, hm, if_true]
    exact ⟨trivial, rfl, rfl, movedFrom_of_inv H _ _ rfl rfl (inv_moved_from _ _ hs rfl)⟩

theorem move_absent_source {T Args E : Type} (H : HeldType T Args E) (d s : optional T)
    (hv : s.has_value = false) :
    (∃ c, (optional.move_ctor H s).1 = .returned c ∧ c.has_value = false) ∧
    (optional.move_ctor H s).2 = s ∧
    (optional.move_assign H d s).1 = .returned () ∧
    (optional.move_assign H d s).2.1.has_value = false ∧
    (optional.move_assign H d s).2.2 = s := by
  obtain ⟨⟨sv⟩, sf, sl⟩ := s
  obtain ⟨⟨dv⟩, df, dl⟩ := d
  simp only [optional.has_value] at hv
  subst hv
  unfold optional.move_ctor optional.move_assign
  split
  · exact ⟨⟨_, rfl, rfl⟩, rfl, rfl, rfl, rfl⟩
  · simp only [copy_base_nontrivial.move_ctor, copy_base_nontrivial.move_assign,
      Bool.false_eq_true, if_false]
    refine ⟨⟨_, rfl, rfl⟩, trivial, ?_⟩
    cases df <;> exact ⟨rfl, rfl, rfl⟩

/-! ## Claims -/

/-- The presence-flag invariant over programs that construct what they flag
(every program without an in-place construction from the empty argument list):
after every step, whether the step returned or an operation of the held type
threw in it, each optional has its flag set exactly when a `T` lives in its
cell, and its cell has seen one more lifetime begin than end when the flag is
set and equally many when it is clear. -/
theorem invariant_of_program {T Args E : Type} (H : HeldType T Args E)
    (cmds : List (Cmd T Args)) (n : Nat) (o : optional T)
    (hcs : ∀ c ∈ cmds, c.constructs_what_it_flags = true)
    (ho : o ∈ (run H (cmds.take n) World.init).objs) :
    (o.has_value = true ↔ ∃ t, o.stg.value = some t) ∧
    constructions o.log = destructions o.log + (if o.has_value = true then 1 else 0) := by
  have h := allInv_run H (cmds.take n) World.init
    (fun c hc => hcs c (List.mem_of_mem_take hc)) allInv_init o ho
  refine ⟨?_, h.2⟩
  rw [← Option.isSome_iff_exists]
  simp [optional.has_value, h.1]

/-- C1 (the code diverges): `optional<string> o(in_place)`, the in-place
construction from the empty argument list, returns an optional whose flag is
set while no `T` lives in its cell and none was ever constructed there: the
flag is true with constructions minus destructions equal to 0, and the
presence-flag invariant fails for this object of the program. -/
theorem C1_in_place_empty_breaks_invariant :
    optional.in_place_ctor string_type Init.empty
      = .returned { stg := { value := none }, has_value_ := true, log := [] } ∧
    ({ stg := { value := none }, has_value_ := true, log := [] } : optional (List Nat))
      ∈ (run string_type [Cmd.in_place_construct Init.empty] World.init).objs ∧
    ({ stg := { value := none }, has_value_ := true, log := [] }
      : optional (List Nat)).has_value = true ∧
    ({ stg := { value := none }, has_value_ := true, log := [] }
      : optional (List Nat)).stg.value = none ∧
    constructions ({ stg := { value := none }, has_value_ := true, log := [] }
      : optional (List Nat)).log = 0 ∧
    destructions ({ stg := { value := none }, has_value_ := true, log := [] }
      : optional (List Nat)).log = 0 ∧
    ¬ ({ stg := { value := none }, has_value_ := true, log := [] }
      : optional (List Nat)).Inv := by
  decide

/-- C2: for every optional `o`, present or absent, and every argument list
from which constructing `T` succeeds with value `t`, `o.emplace(args...)`
returns and leaves `o` present, holding `t`. -/
theorem C2_emplace_success {T Args E : Type} (H : HeldType T Args E) (a : Init T Args)
    (o : optional T) (t : T) (hc : H.init a = .ok t) :
    (optional.emplace H a o).1 = .returned () ∧
    (optional.emplace H a o).2.has_value = true ∧
    (optional.emplace H a o).2.deref = some t := by
  unfold optional.emplace copy_base_trivial.emplace copy_base_nontrivial.emplace
  split <;> simp [hc, optional.has_value, optional.deref, optional.read_value,
    optional.placement_new, optional.set_has_value]

/-- Witness for C2, the scenario of the specification: a default-constructed
`optional<int>` is not present; after `emplace(42)` it is present with value
42 (also when it was present before, holding 7); after `reset()` it is not
present. -/
theorem C2_emplace_success_witness :
    (optional.default_ctor : optional Int).has_value = false ∧
    ((optional.emplace int_type (Init.pack 42) optional.default_ctor).1 = .returned () ∧
     (optional.emplace int_type (Init.pack 42) optional.default_ctor).2.has_value = true ∧
     (optional.emplace int_type (Init.pack 42) optional.default_ctor).2.deref = some 42) ∧
    (optional.emplace int_type (Init.pack 42)
      (optional.emplace int_type (Init.pack 7) optional.default_ctor).2).2.deref = some 42 ∧
    (optional.reset int_type
      (optional.emplace int_type (Init.pack 42) optional.default_ctor).2).has_value = false :=
  ⟨by decide,
   C2_emplace_success int_type (Init.pack 42) optional.default_ctor 42 rfl,
   (C2_emplace_success int_type (Init.pack 42)
      (optional.emplace int_type (Init.pack 7) optional.default_ctor).2 42 rfl).2.2,
   by decide⟩

/-- C3: for every optional `o` satisfying the invariant, present or absent,
if the constructor of `T` selected by `args` throws `e` (and so is not
declared `noexcept`), then `o.emplace(args...)` throws that same `e` and
leaves `o` empty: flag clear, no `T` in the cell, the destructor called once
if `o` was present and not at all if it was absent, nothing constructed, and
the invariant holds. -/
theorem C3_emplace_failure {T Args E : Type} (H : HeldType T Args E) (a : Init T Args)
    (o : optional T) (e : E) (hinv : o.Inv) (hfail : H.init a = .error e)
    (hdecl : H.init_nothrow a = false) :
    (optional.emplace H a o).1 = .threw e ∧
    (optional.emplace H a o).2.has_value = false ∧
    (optional.emplace H a o).2.stg.value = none ∧
    destructor_calls (optional.emplace H a o).2.log
      = destructor_calls o.log + (if o.has_value = true then 1 else 0) ∧
    constructions (optional.emplace H a o).2.log = constructions o.log ∧
    (optional.emplace H a o).2.Inv := by
  have hI := inv_optional_emplace H a o hinv
  rw [optional_emplace_eq] at hI ⊢
  have hop : ¬ (a.op = Op.destroy) := by cases a <;> simp [Init.op]
  have hst : copy_base_nontrivial.emplace H a o
      = (.threw e, (copy_base_nontrivial.reset o).failed_new a.op) := by
    simp [copy_base_nontrivial.emplace, hfail, hdecl, noexcept_if]
  rw [hst] at hI ⊢
  obtain ⟨h1, _⟩ := hinv
  refine ⟨rfl, ?_, ?_, ?_, ?_, hI⟩
  · cases hv : o.has_value_ <;>
      simp [copy_base_nontrivial.reset, hv, optional.has_value, optional.failed_new,
        optional.destroy_value, optional.set_has_value]
  · cases hv : o.has_value_
    · simpa [copy_base_nontrivial.reset, hv, optional.failed_new] using h1
    · simp [copy_base_nontrivial.reset, hv, optional.failed_new, optional.destroy_value,
        optional.set_has_value]
  · cases hv : o.has_value_ <;>
      simp [copy_base_nontrivial.reset, hv, optional.has_value, optional.failed_new,
        optional.destroy_value, optional.set_has_value, destructor_calls,
        List.countP_append, List.countP_cons, hop]
  · cases hv : o.has_value_ <;>
      simp [copy_base_nontrivial.reset, hv, optional.failed_new,
        optional.destroy_value, optional.set_has_value, constructions,
        List.countP_append, List.countP_cons, Op.begins]

/-- Witness for C3: an `optional` of `throwing_type` holding 5, then
`emplace(0)`, whose constructor throws `1`. -/
theorem C3_emplace_failure_witness :
    (optional.emplace throwing_type (Init.pack 0)
      { stg := { value := some 5 }, has_value_ := true,
        log := [{ op := Op.construct, ok := true }] }).1 = .threw 1 ∧
    (optional.emplace throwing_type (Init.pack 0)
      { stg := { value := some 5 }, has_value_ := true,
        log := [{ op := Op.construct, ok := true }] }).2.has_value = false :=
  ⟨(C3_emplace_failure throwing_type (Init.pack 0)
      { stg := { value := some 5 }, has_value_ := true,
        log := [{ op := Op.construct, ok := true }] } 1 (by decide) rfl rfl).1,
   (C3_emplace_failure throwing_type (Init.pack 0)
      { stg := { value := some 5 }, has_value_ := true,
        log := [{ op := Op.construct, ok := true }] } 1 (by decide) rfl rfl).2.1⟩

/-- C4: for every optional `o`, `o.reset()` and `o = nullopt` are the same
operation and leave `o` not present; if `o` was present the destructor of the
held value was called exactly once and the cell is empty, if `o` was absent
nothing changed; and `reset(); reset()` leaves the same state, log and
destructor count included, as one `reset()`. -/
theorem C4_reset {T Args E : Type} (H : HeldType T Args E) (o : optional T) :
    (optional.reset H o).has_value = false ∧
    optional.assign_nullopt H o = optional.reset H o ∧
    (optional.reset H o).log
      = o.log ++ (if o.has_value = true then [{ op := Op.destroy, ok := true }] else []) ∧
    destructor_calls (optional.reset H o).log
      = destructor_calls o.log + (if o.has_value = true then 1 else 0) ∧
    (optional.reset H o).stg.value = (if o.has_value = true then none else o.stg.value) ∧
    (o.has_value = false → optional.reset H o = o) ∧
    optional.reset H (optional.reset H o) = optional.reset H o := by
  refine ⟨?_, rfl, ?_⟩
  · rw [optional_reset_eq]
    cases hv : o.has_value_ <;>
      simp [copy_base_nontrivial.reset, hv, optional.has_value, optional.destroy_value,
        optional.set_has_value]
  · simp only [optional_reset_eq]
    cases hv : o.has_value_ <;>
      simp [copy_base_nontrivial.reset, hv, optional.has_value, optional.destroy_value,
        optional.set_has_value, destructor_calls, List.countP_append, List.countP_cons]

/-- C5: copy. Let `s` and `d` be optionals satisfying the invariant, and let
the copy constructor and copy assignment of `T`, applied to the value held by
`s`, succeed and reproduce it. Then copy-constructing from `s` returns an
optional, and `d = s` returns and leaves `d`, with the presence of `s` and,
when `s` is present, holding a value equal to that of `s`. In a program where
`d` and `s` are distinct objects the source is the same after the copy as
before, and a later write to the held value of either object leaves the other
object as it was. -/
theorem C5_copy {T Args E : Type} (H : HeldType T Args E) (d s : optional T)
    (hd : d.Inv) (hs : s.Inv)
    (hcc : ∀ y, s.deref = some y → H.copy_construct y = .ok y)
    (hca : ∀ x y, d.deref = some x → s.deref = some y → H.copy_assign x y = (none, y)) :
    (∃ c, optional.copy_ctor H s = .returned c ∧ c.has_value = s.has_value ∧
      c.deref = s.deref ∧
      ∀ (w : World T) (j : Nat), w.halted = false → w.objs[j]? = some s →
        (exec H w (Cmd.copy_construct j)).objs[j]? = some s ∧
        (exec H w (Cmd.copy_construct j)).objs[w.objs.length]? = some c ∧
        ∀ f, ((exec H w (Cmd.copy_construct j)).mutate j f).objs[w.objs.length]? = some c ∧
          ((exec H w (Cmd.copy_construct j)).mutate w.objs.length f).objs[j]? = some s) ∧
    (optional.copy_assign H d s).1 = .returned () ∧
    (optional.copy_assign H d s).2.has_value = s.has_value ∧
    (optional.copy_assign H d s).2.deref = s.deref ∧
    (s.has_value = true → ∃ y, s.deref = some y) ∧
    ∀ (w : World T) (i j : Nat), w.halted = false → w.objs[i]? = some d →
      w.objs[j]? = some s → i ≠ j →
      (exec H w (Cmd.copy_assign i j)).objs[j]? = some s ∧
      (exec H w (Cmd.copy_assign i j)).objs[i]? = some (optional.copy_assign H d s).2 ∧
      ∀ f, ((exec H w (Cmd.copy_assign i j)).mutate j f).objs[i]?
            = some (optional.copy_assign H d s).2 ∧
        ((exec H w (Cmd.copy_assign i j)).mutate i f).objs[j]? = some s := by
  obtain ⟨c, hc, hcv, hcd⟩ := copy_ctor_spec H s hs hcc
  obtain ⟨ha, hav, had⟩ := copy_assign_spec H d s hd hs hcc hca
  refine ⟨⟨c, hc, hcv, hcd, ?_⟩, ha, hav, had, ?_, ?_⟩
  · intro w j hw hj
    have hlt := lt_length_of_getElem? _ _ _ hj
    have hne : j ≠ w.objs.length := Nat.ne_of_lt hlt
    rw [exec_copy_construct_returned H w j s c hw hj hc]
    have h1 : (w.objs ++ [c])[j]? = some s := by
      rw [List.getElem?_append_left hlt]
      exact hj
    have h2 : (w.objs ++ [c])[w.objs.length]? = some c := List.getElem?_concat_length _ _
    refine ⟨h1, h2, fun f => ⟨?_, ?_⟩⟩
    · rw [mutate_other _ _ _ _ hne]
      exact h2
    · rw [mutate_other _ _ _ _ (Ne.symm hne)]
      exact h1
  · intro hv
    have h1 := hs.1
    rw [show s.has_value_ = true from hv] at h1
    exact Option.isSome_iff_exists.mp h1
  · intro w i j hw hi hj hij
    rw [exec_copy_assign_returned H w i j d s hw hi hj ha]
    have h1 : (w.objs.set i (optional.copy_assign H d s).2)[j]? = some s := by
      rw [List.getElem?_set_ne hij]
      exact hj
    have h2 : (w.objs.set i (optional.copy_assign H d s).2)[i]?
        = some (optional.copy_assign H d s).2 := getElem?_set_same _ _ _ _ hi
    refine ⟨h1, h2, fun f => ⟨?_, ?_⟩⟩
    · rw [mutate_other _ _ _ _ (Ne.symm hij)]
      exact h2
    · rw [mutate_other _ _ _ _ hij]
      exact h1

/-- Witness for C5, the scenario of the specification: an `optional<string>`
holding the empty string is copied into an empty optional; the copy holds the
empty string, the source is as before, and appending a character to the held
value of the source afterwards leaves the copy as it was. -/
theorem C5_copy_witness :
    (optional.copy_assign string_type optional.fresh
      { stg := { value := some [] }, has_value_ := true,
        log := [{ op := Op.construct, ok := true }] }).2.deref = some [] ∧
    ((exec string_type
        { objs := [optional.fresh,
            { stg := { value := some [] }, has_value_ := true,
              log := [{ op := Op.construct, ok := true }] }],
          halted := false }
        (Cmd.copy_assign 0 1)).mutate 1 (fun x => 104 :: x)).objs[0]?
      = some (optional.copy_assign string_type optional.fresh
          { stg := { value := some [] }, has_value_ := true,
            log := [{ op := Op.construct, ok := true }] }).2 :=
  ⟨(C5_copy string_type optional.fresh
      { stg := { value := some [] }, has_value_ := true,
        log := [{ op := Op.construct, ok := true }] }
      (by decide) (by decide) (fun _ _ => rfl) (fun _ _ _ _ => rfl)).2.2.2.1,
   (((C5_copy string_type optional.fresh
      { stg := { value := some [] }, has_value_ := true,
        log := [{ op := Op.construct, ok := true }] }
      (by decide) (by decide) (fun _ _ => rfl) (fun _ _ _ _ => rfl)).2.2.2.2.2
      { objs := [optional.fresh,
          { stg := { value := some [] }, has_value_ := true,
            log := [{ op := Op.construct, ok := true }] }],
        halted := false } 0 1 rfl rfl rfl (by decide)).2.2 (fun x => 104 :: x)).1⟩

/-- C6: move. Let `s` and `d` be optionals satisfying the invariant (and let
a move of a trivially copyable `T` be a copy). If `s` is present, holding `y`:
move-constructing from `s` returns a present optional holding the value `t`
that the move constructor of `T` makes from `y`; `d = std::move(s)` leaves `d`
present, holding the value made by the move constructor of `T` when `d` was
absent and the value the move assignment of `T` leaves in `d` when `d` was
present; and in each case `s` still has its flag set, holds the moved-from
object, satisfies the invariant, and destroying it ends exactly that one
lifetime. If `s` is absent, the new optional and `d` end absent and `s` is
unchanged. -/
theorem C6_move {T Args E : Type} (H : HeldType T Args E) (d s : optional T)
    (hd : d.Inv) (hs : s.Inv)
    (htriv : H.is_trivially_copyable = true →
      ∀ x y, H.move_construct y = (.ok y, y) ∧ H.move_assign x y = (none, y, y)) :
    (s.has_value = true → ∃ y, s.deref = some y ∧
      (∀ t y1, H.move_construct y = (.ok t, y1) →
        (∃ c, (optional.move_ctor H s).1 = .returned c ∧ c.has_value = true ∧
          c.deref = some t) ∧
        (optional.move_ctor H s).2.MovedFrom H y1) ∧
      (d.has_value = false → ∀ t y1, H.move_construct y = (.ok t, y1) →
        (optional.move_assign H d s).1 = .returned () ∧
        (optional.move_assign H d s).2.1.has_value = true ∧
        (optional.move_assign H d s).2.1.deref = some t ∧
        (optional.move_assign H d s).2.2.MovedFrom H y1) ∧
      (∀ x, d.deref = some x → ∀ t y1, H.move_assign x y = (none, t, y1) →
        (optional.move_assign H d s).1 = .returned () ∧
        (optional.move_assign H d s).2.1.has_value = true ∧
        (optional.move_assign H d s).2.1.deref = some t ∧
        (optional.move_assign H d s).2.2.MovedFrom H y1)) ∧
    (s.has_value = false →
      (∃ c, (optional.move_ctor H s).1 = .returned c ∧ c.has_value = false) ∧
      (optional.move_ctor H s).2 = s ∧
      (optional.move_assign H d s).1 = .returned () ∧
      (optional.move_assign H d s).2.1.has_value = false ∧
      (optional.move_assign H d s).2.2 = s) := by
  refine ⟨fun hv => ?_, fun hv => move_absent_source H d s hv⟩
  have h1 := hs.1
  rw [show s.has_value_ = true from hv] at h1
  obtain ⟨y, hy⟩ := Option.isSome_iff_exists.mp h1
  exact ⟨y, hy,
    fun t y1 hm => move_ctor_present H s y t y1 hs hv hy htriv hm,
    fun hdv t y1 hm => move_assign_into_absent H d s y t y1 hs hv hy hdv htriv hm,
    fun x hx t y1 hm => move_assign_into_present H d s x y t y1 hd hs hv hy hx htriv hm⟩

/-- Witness for C6: an `optional<string>` holding "hi" is moved into an empty
optional, which then holds "hi", and into one holding "yo", which then holds
"hi" too; the source is still present, holding the moved-from empty string.
For `optional<int>` the move is a copy and the source keeps its 5. -/
theorem C6_move_witness :
    (optional.move_assign string_type optional.fresh
      { stg := { value := some [104, 105] }, has_value_ := true,
        log := [{ op := Op.construct, ok := true }] }).2.1.deref = some [104, 105] ∧
    (optional.move_assign string_type optional.fresh
      { stg := { value := some [104, 105] }, has_value_ := true,
        log := [{ op := Op.construct, ok := true }] }).2.2.has_value = true ∧
    (optional.move_assign string_type optional.fresh
      { stg := { value := some [104, 105] }, has_value_ := true,
        log := [{ op := Op.construct, ok := true }] }).2.2.deref = some [] ∧
    (optional.move_assign string_type
      { stg := { value := some [121, 111] }, has_value_ := true,
        log := [{ op := Op.construct, ok := true }] }
      { stg := { value := some [104, 105] }, has_value_ := true,
        log := [{ op := Op.construct, ok := true }] }).2.1.deref = some [104, 105] ∧
    (optional.move_assign int_type optional.fresh
      { stg := { value := some 5 }, has_value_ := true,
        log := [{ op := Op.construct, ok := true }] }).2.2.deref = some 5 := by
  obtain ⟨y, hy, _, hB, _⟩ := (C6_move string_type optional.fresh
      { stg := { value := some [104, 105] }, has_value_ := true,
        log := [{ op := Op.construct, ok := true }] }
      (by decide) (by decide) (fun h => absurd h (by decide))).1 rfl
  obtain ⟨z, hz, _, _, hC⟩ := (C6_move string_type
      { stg := { value := some [121, 111] }, has_value_ := true,
        log := [{ op := Op.construct, ok := true }] }
      { stg := { value := some [104, 105] }, has_value_ := true,
        log := [{ op := Op.construct, ok := true }] }
      (by decide) (by decide) (fun h => absurd h (by decide))).1 rfl
  obtain ⟨u, hu, _, hD, _⟩ := (C6_move int_type optional.fresh
      { stg := { value := some 5 }, has_value_ := true,
        log := [{ op := Op.construct, ok := true }] }
      (by decide) (by decide) (fun _ _ _ => ⟨rfl, rfl⟩)).1 rfl
  cases hy
  cases hz
  cases hu
  have h := hB rfl [104, 105] [] rfl
  have h2 := hC [121, 111] rfl [104, 105] [] rfl
  have h3 := hD rfl 5 5 rfl
  exact ⟨h.2.2.1, h.2.2.2.1, h.2.2.2.2.1, h2.2.2.1, h3.2.2.2.2.1⟩

theorem in_place_ctor_spec {T Args E : Type} (H : HeldType T Args E) (a : Init T Args)
    (t : T) (hne : a.is_empty = false) (hc : H.init a = .ok t) :
    optional.in_place_ctor H a
      = .returned ((optional.fresh.placement_new a.op t).set_has_value true) := by
  unfold optional.in_place_ctor copy_base_trivial.in_place copy_base_nontrivial.in_place
  split <;> simp [hc, hne, noexcept_if]

theorem value_ctor_spec {T Args E : Type} (H : HeldType T Args E) (v w : T)
    (hmove : (H.move_construct v).1 = .ok w) :
    optional.value_ctor H v
      = .returned ((optional.fresh.placement_new Op.move_construct w).set_has_value true) := by
  unfold optional.value_ctor
  rw [in_place_ctor_spec H (Init.rvalue v) w rfl hmove]
  rfl

/-- C7 (the code diverges): for `std::string` seen as `string_type`, `T()` is
the empty string, but `optional<string>(in_place)`, the in-place construction
from the empty argument list, returns an optional that is present and holds no
`T` at all: reading `*o` reads a cell in which nothing was constructed. From a
non-empty list, here the string "hi", the in-place constructor holds
`T(args...)`, and `optional<string>("hi")` holds "hi". -/
theorem C7_in_place_empty_holds_no_value :
    string_type.init Init.empty = .ok [] ∧
    optional.in_place_ctor string_type Init.empty
      = .returned { stg := { value := none }, has_value_ := true, log := [] } ∧
    ({ stg := { value := none }, has_value_ := true, log := [] }
      : optional (List Nat)).has_value = true ∧
    ({ stg := { value := none }, has_value_ := true, log := [] }
      : optional (List Nat)).deref = none ∧
    optional.in_place_ctor string_type (Init.pack [104, 105])
      = .returned { stg := { value := some [104, 105] }, has_value_ := true,
                    log := [{ op := Op.construct, ok := true }] } ∧
    optional.value_ctor string_type [104, 105]
      = .returned { stg := { value := some [104, 105] }, has_value_ := true,
                    log := [{ op := Op.move_construct, ok := true }] } :=
  ⟨rfl, by decide, rfl, rfl, by decide, by decide⟩

/-- C8: for every held type, a default-constructed optional and an optional
constructed from `nullopt` are not present: `has_value()` and the conversion
to `bool` are false, no `T` lives in the cell and none was ever constructed
in it. -/
theorem C8_default_is_empty {T : Type} :
    (optional.default_ctor : optional T).has_value = false ∧
    (optional.default_ctor : optional T).operator_bool = false ∧
    (optional.default_ctor : optional T).stg.value = none ∧
    (optional.default_ctor : optional T).log = [] ∧
    constructions (optional.default_ctor : optional T).log = 0 ∧
    (optional.nullopt_ctor : optional T).has_value = false ∧
    (optional.nullopt_ctor : optional T).operator_bool = false ∧
    (optional.nullopt_ctor : optional T).stg.value = none ∧
    (optional.nullopt_ctor : optional T).log = [] ∧
    constructions (optional.nullopt_ctor : optional T).log = 0 :=
  ⟨rfl, rfl, rfl, rfl, rfl, rfl, rfl, rfl, rfl, rfl⟩

/-- C9: `operator==` on two optionals `a`, `b` satisfying the invariant: both
empty gives true; both present gives the held type's `*a == *b`; exactly one
present gives false; and `operator!=` is the negation of `operator==`. No
evaluation reads an empty cell. -/
theorem C9_equality {T Args E : Type} (H : HeldType T Args E) (a b : optional T)
    (ha : a.Inv) (hb : b.Inv) :
    (a.has_value = false → b.has_value = false → operator_eq H a b = some true) ∧
    (a.has_value = true → b.has_value = true →
      ∃ x y, a.deref = some x ∧ b.deref = some y ∧ operator_eq H a b = some (H.eq x y)) ∧
    (a.has_value ≠ b.has_value → operator_eq H a b = some false) ∧
    (∃ r, operator_eq H a b = some r ∧ operator_ne H a b = some (!r)) := by
  obtain ⟨⟨av⟩, af, al⟩ := a
  obtain ⟨⟨bv⟩, bf, bl⟩ := b
  obtain ⟨h1, _⟩ := ha
  obtain ⟨h2, _⟩ := hb
  simp only at h1 h2
  subst h1 h2
  cases av <;> cases bv <;>
    simp [operator_eq, operator_ne, optional.has_value, optional.operator_bool,
      optional.deref, optional.read_value]

/-- Witness for C9, the scenario of the specification: for `optional<int>`
`a(5)` and `b(7)`, `a == b` is false and `a != b` is true; `a == a` is true. -/
theorem C9_equality_witness :
    operator_eq int_type
      { stg := { value := some 5 }, has_value_ := true,
        log := [{ op := Op.move_construct, ok := true }] }
      { stg := { value := some 7 }, has_value_ := true,
        log := [{ op := Op.move_construct, ok := true }] } = some false ∧
    ∃ r, operator_eq int_type
      { stg := { value := some 5 }, has_value_ := true,
        log := [{ op := Op.move_construct, ok := true }] }
      { stg := { value := some 7 }, has_value_ := true,
        log := [{ op := Op.move_construct, ok := true }] } = some r ∧
      operator_ne int_type
      { stg := { value := some 5 }, has_value_ := true,
        log := [{ op := Op.move_construct, ok := true }] }
      { stg := { value := some 7 }, has_value_ := true,
        log := [{ op := Op.move_construct, ok := true }] } = some (!r) :=
  ⟨by decide,
   (C9_equality int_type
      { stg := { value := some 5 }, has_value_ := true,
        log := [{ op := Op.move_construct, ok := true }] }
      { stg := { value := some 7 }, has_value_ := true,
        log := [{ op := Op.move_construct, ok := true }] }
      (by decide) (by decide)).2.2.2⟩

/-- C10: `operator<` with a present right operand, or both operands absent.
For every absent optional `e` and all present optionals `a`, `b` satisfying
the invariant: `e < a` is true, `e < e` is false, and `a < b` is the held
type's `*a < *b`. -/
theorem C10_less_than {T Args E : Type} (H : HeldType T Args E) (e a b : optional T)
    (ha : a.Inv) (hb : b.Inv) (he : e.has_value = false) (hpa : a.has_value = true)
    (hpb : b.has_value = true) :
    operator_lt H e a = some true ∧
    operator_lt H e e = some false ∧
    ∃ x y, a.deref = some x ∧ b.deref = some y ∧ operator_lt H a b = some (H.lt x y) := by
  obtain ⟨⟨av⟩, af, al⟩ := a
  obtain ⟨⟨bv⟩, bf, bl⟩ := b
  obtain ⟨⟨ev⟩, ef, el⟩ := e
  obtain ⟨h1, _⟩ := ha
  obtain ⟨h2, _⟩ := hb
  simp only [optional.has_value] at h1 h2 he hpa hpb
  subst he hpa hpb
  cases av <;> cases bv <;>
    simp [operator_lt, optional.has_value, optional.operator_bool,
      optional.deref, optional.read_value] at h1 h2 ⊢
  rename_i x _ y _
  cases H.lt x y <;> rfl

/-- Witness for C10, the scenario of the specification: for `optional<int>`
`a(5)` and `b(7)`, `a < b` is true and `optional<int>{} < a` is true. -/
theorem C10_less_than_witness :
    operator_lt int_type optional.default_ctor
      { stg := { value := some 5 }, has_value_ := true,
        log := [{ op := Op.move_construct, ok := true }] } = some true ∧
    operator_lt int_type
      { stg := { value := some 5 }, has_value_ := true,
        log := [{ op := Op.move_construct, ok := true }] }
      { stg := { value := some 7 }, has_value_ := true,
        log := [{ op := Op.move_construct, ok := true }] } = some true :=
  ⟨(C10_less_than int_type optional.default_ctor
      { stg := { value := some 5 }, has_value_ := true,
        log := [{ op := Op.move_construct, ok := true }] }
      { stg := { value := some 7 }, has_value_ := true,
        log := [{ op := Op.move_construct, ok := true }] }
      (by decide) (by decide) rfl rfl rfl).1,
   by decide⟩

/-! ## Comparison with an absent right operand -/

theorem operator_lt_present_absent {T Args E : Type} (H : HeldType T Args E)
    (a e : optional T) (he : e.Inv) (hpa : a.has_value = true) (hpe : e.has_value = false) :
    operator_lt H a e = none := by
  obtain ⟨⟨av⟩, af, al⟩ := a
  obtain ⟨⟨ev⟩, ef, el⟩ := e
  obtain ⟨h1, _⟩ := he
  simp only [optional.has_value] at h1 hpa hpe
  subst hpa hpe
  cases ev with
  | none => cases av <;> simp [operator_lt, optional.operator_bool, optional.has_value,
      optional.deref, optional.read_value]
  | some y => simp at h1

/-- C11 (the code diverges): for `optional<int>` `a(5)` and an empty `e`, the
evaluation of `a < e` takes the first disjunct `a && *a < *e` and reads the
empty cell of `e`: its result is undefined, not false. With the operands
exchanged `e < a` is true without any read. -/
theorem C11_present_less_than_absent_reads_empty_cell :
    operator_lt int_type
      { stg := { value := some 5 }, has_value_ := true,
        log := [{ op := Op.move_construct, ok := true }] }
      optional.default_ctor = none ∧
    operator_lt int_type optional.default_ctor
      { stg := { value := some 5 }, has_value_ := true,
        log := [{ op := Op.move_construct, ok := true }] } = some true := by
  decide

/-- C12 (the code diverges): for `optional<int>` `a(5)` and an empty `b`,
each of `a < b`, `a <= b`, `a > b` and `a >= b` reads the empty cell of `b`,
while `a == b` and `a != b` read no cell. -/
theorem C12_ordering_reads_absent_right_operand :
    operator_lt int_type
      { stg := { value := some 5 }, has_value_ := true,
        log := [{ op := Op.move_construct, ok := true }] }
      optional.default_ctor = none ∧
    operator_le int_type
      { stg := { value := some 5 }, has_value_ := true,
        log := [{ op := Op.move_construct, ok := true }] }
      optional.default_ctor = none ∧
    operator_gt int_type
      { stg := { value := some 5 }, has_value_ := true,
        log := [{ op := Op.move_construct, ok := true }] }
      optional.default_ctor = none ∧
    operator_ge int_type
      { stg := { value := some 5 }, has_value_ := true,
        log := [{ op := Op.move_construct, ok := true }] }
      optional.default_ctor = none ∧
    operator_eq int_type
      { stg := { value := some 5 }, has_value_ := true,
        log := [{ op := Op.move_construct, ok := true }] }
      optional.default_ctor = some false ∧
    operator_ne int_type
      { stg := { value := some 5 }, has_value_ := true,
        log := [{ op := Op.move_construct, ok := true }] }
      optional.default_ctor = some true := by
  decide

/-- C13: equality on optionals satisfying the invariant, for a held type whose
`==` is reflexive and symmetric: `a == a` is true, `a == b` equals `b == a`,
for present `a`, `b` it is the held type's `*a == *b`, and an absent `a` is
equal to `b` exactly when `b` is absent. -/
theorem C13_equality_laws {T Args E : Type} (H : HeldType T Args E) (a b : optional T)
    (ha : a.Inv) (hb : b.Inv) (hrefl : ∀ x, H.eq x x = true)
    (hsymm : ∀ x y, H.eq x y = H.eq y x) :
    operator_eq H a a = some true ∧
    operator_eq H a b = operator_eq H b a ∧
    (a.has_value = true → b.has_value = true →
      ∃ x y, a.deref = some x ∧ b.deref = some y ∧ operator_eq H a b = some (H.eq x y)) ∧
    (a.has_value = false → operator_eq H a b = some (!b.has_value)) := by
  obtain ⟨⟨av⟩, af, al⟩ := a
  obtain ⟨⟨bv⟩, bf, bl⟩ := b
  obtain ⟨h1, _⟩ := ha
  obtain ⟨h2, _⟩ := hb
  simp only at h1 h2
  subst h1 h2
  cases av <;> cases bv <;>
    simp [operator_eq, optional.has_value, optional.operator_bool,
      optional.deref, optional.read_value, hrefl]
  exact hsymm _ _

/-- Witness for C13: `optional<int>` `a(5)`, `b(7)`: `a == a`, and `a == b`
equals `b == a`. -/
theorem C13_equality_laws_witness :
    operator_eq int_type
      { stg := { value := some 5 }, has_value_ := true,
        log := [{ op := Op.move_construct, ok := true }] }
      { stg := { value := some 5 }, has_value_ := true,
        log := [{ op := Op.move_construct, ok := true }] } = some true ∧
    operator_eq int_type
      { stg := { value := some 5 }, has_value_ := true,
        log := [{ op := Op.move_construct, ok := true }] }
      { stg := { value := some 7 }, has_value_ := true,
        log := [{ op := Op.move_construct, ok := true }] }
      = operator_eq int_type
      { stg := { value := some 7 }, has_value_ := true,
        log := [{ op := Op.move_construct, ok := true }] }
      { stg := { value := some 5 }, has_value_ := true,
        log := [{ op := Op.move_construct, ok := true }] } :=
  ⟨(C13_equality_laws int_type
      { stg := { value := some 5 }, has_value_ := true,
        log := [{ op := Op.move_construct, ok := true }] }
      { stg := { value := some 7 }, has_value_ := true,
        log := [{ op := Op.move_construct, ok := true }] }
      (by decide) (by decide) (fun x => by simp [int_type])
      (fun x y => by simp [int_type, eq_comm])).1,
   (C13_equality_laws int_type
      { stg := { value := some 5 }, has_value_ := true,
        log := [{ op := Op.move_construct, ok := true }] }
      { stg := { value := some 7 }, has_value_ := true,
        log := [{ op := Op.move_construct, ok := true }] }
      (by decide) (by decide) (fun x => by simp [int_type])
      (fun x y => by simp [int_type, eq_comm])).2.1⟩

/-! ## Cells of a type that is not trivially copyable see calls into `T` only -/

theorem init_op_explicit {T Args : Type} (a : Init T Args) :
    a.op ≠ Op.implicit_begin ∧ a.op ≠ Op.implicit_end := by
  cases a <;> simp [Init.op]

theorem explicitOnly_fresh {T : Type} : (optional.fresh : optional T).ExplicitOnly := by
  intro e he
  simp [optional.fresh] at he

theorem explicitOnly_append {T : Type} (o o1 : optional T) (ext : List Event)
    (h : o.ExplicitOnly) (hl : o1.log = o.log ++ ext)
    (hx : ∀ e ∈ ext, e.op ≠ Op.implicit_begin ∧ e.op ≠ Op.implicit_end) :
    o1.ExplicitOnly := by
  intro e he
  rw [hl, List.mem_append] at he
  rcases he with h1 | h1
  · exact h e h1
  · exact hx e h1

theorem explicitOnly_reset {T : Type} (o : optional T) (h : o.ExplicitOnly) :
    (copy_base_nontrivial.reset o).ExplicitOnly := by
  unfold copy_base_nontrivial.reset
  split
  · exact explicitOnly_append o _ [{ op := Op.destroy, ok := true }] h rfl (by simp)
  · exact h

theorem explicitOnly_emplace {T Args E : Type} (H : HeldType T Args E) (a : Init T Args)
    (o : optional T) (h : o.ExplicitOnly) :
    (copy_base_nontrivial.emplace H a o).2.ExplicitOnly := by
  have hr := explicitOnly_reset o h
  have ha := init_op_explicit a
  unfold copy_base_nontrivial.emplace
  split
  · exact explicitOnly_append _ _ [{ op := a.op, ok := true }] hr rfl (by simpa using ha)
  · exact explicitOnly_append _ _ [{ op := a.op, ok := false }] hr rfl (by simpa using ha)

theorem explicitOnly_copy_assign {T Args E : Type} (H : HeldType T Args E)
    (self other : optional T) (h : self.ExplicitOnly) :
    (copy_base_nontrivial.copy_assign H self other).2.ExplicitOnly := by
  unfold copy_base_nontrivial.copy_assign
  split
  · split
    · split
      · split
        · exact explicitOnly_append self _ [{ op := Op.copy_assign, ok := true }] h rfl
            (by simp)
        · exact explicitOnly_append self _ [{ op := Op.copy_assign, ok := false }] h rfl
            (by simp)
      · exact h
    · split
      · split
        · exact explicitOnly_append self _ [{ op := Op.copy_construct, ok := true }] h rfl
            (by simp)
        · exact explicitOnly_append self _ [{ op := Op.copy_construct, ok := false }] h rfl
            (by simp)
      · exact h
  · split
    · exact explicitOnly_append self _ [{ op := Op.destroy, ok := true }] h rfl (by simp)
    · exact h

theorem explicitOnly_move_assign {T Args E : Type} (H : HeldType T Args E)
    (self other : optional T) (h : self.ExplicitOnly) :
    (copy_base_nontrivial.move_assign H self other).2.1.ExplicitOnly := by
  unfold copy_base_nontrivial.move_assign
  split
  · split
    · split
      · split
        · exact explicitOnly_append self _ [{ op := Op.move_assign, ok := true }] h rfl
            (by simp)
        · exact explicitOnly_append self _ [{ op := Op.move_assign, ok := false }] h rfl
            (by simp)
      · exact h
    · split
      · split
        · exact explicitOnly_append self _ [{ op := Op.move_construct, ok := true }] h rfl
            (by simp)
        · exact explicitOnly_append self _ [{ op := Op.move_construct, ok := false }] h rfl
            (by simp)
      · exact h
  · split
    · exact explicitOnly_append self _ [{ op := Op.destroy, ok := true }] h rfl (by simp)
    · exact h

theorem explicitOnly_move_assign_source {T Args E : Type} (H : HeldType T Args E)
    (self other : optional T) (h : other.ExplicitOnly) :
    (copy_base_nontrivial.move_assign H self other).2.2.ExplicitOnly := by
  unfold copy_base_nontrivial.move_assign
  repeat' split
  all_goals exact h

theorem explicitOnly_move_ctor_source {T Args E : Type} (H : HeldType T Args E)
    (other : optional T) (h : other.ExplicitOnly) :
    (copy_base_nontrivial.move_ctor H other).2.ExplicitOnly := by
  unfold copy_base_nontrivial.move_ctor
  repeat' split
  all_goals exact h

theorem explicitOnly_in_place {T Args E : Type} (H : HeldType T Args E) (a : Init T Args)
    (o : optional T) (h : copy_base_nontrivial.in_place H a = .returned o) :
    o.ExplicitOnly := by
  unfold copy_base_nontrivial.in_place at h
  have h1 := noexcept_if_returned _ _ _ h
  have ha := init_op_explicit a
  split at h1
  · simp only [Result.returned.injEq] at h1
    subst h1
    intro e he
    simp [optional.fresh, optional.set_has_value] at he
  · split at h1
    · simp only [Result.returned.injEq] at h1
      subst h1
      exact explicitOnly_append _ _ [{ op := a.op, ok := true }] explicitOnly_fresh rfl
        (by simpa using ha)
    · simp at h1

theorem explicitOnly_copy_ctor {T Args E : Type} (H : HeldType T Args E)
    (other o : optional T) (h : copy_base_nontrivial.copy_ctor H other = .returned o) :
    o.ExplicitOnly := by
  unfold copy_base_nontrivial.copy_ctor at h
  split at h
  · split at h
    · split at h
      · simp only [Result.returned.injEq] at h
        subst h
        exact explicitOnly_append _ _ [{ op := Op.copy_construct, ok := true }]
          explicitOnly_fresh rfl (by simp)
      · exact absurd (noexcept_if_returned _ _ _ h) (by simp)
    · simp at h
  · simp only [Result.returned.injEq] at h
    subst h
    intro e he
    simp [optional.fresh, optional.set_has_value] at he

theorem explicitOnly_move_ctor {T Args E : Type} (H : HeldType T Args E)
    (other o : optional T) (h : (copy_base_nontrivial.move_ctor H other).1 = .returned o) :
    o.ExplicitOnly := by
  unfold copy_base_nontrivial.move_ctor at h
  split at h
  · split at h
    · split at h
      · simp only [Result.returned.injEq] at h
        subst h
        exact explicitOnly_append _ _ [{ op := Op.move_construct, ok := true }]
          explicitOnly_fresh rfl (by simp)
      · simp only at h
        exact absurd (noexcept_if_returned _ _ _ h) (by simp)
    · simp at h
  · simp only [Result.returned.injEq] at h
    subst h
    intro e he
    simp [optional.fresh, optional.set_has_value] at he

theorem forall_mem_set {α : Type} (P : α → Prop) (l : List α) (i : Nat) (a : α)
    (hl : ∀ x ∈ l, P x) (ha : P a) : ∀ x ∈ l.set i a, P x := by
  intro x hx
  rcases List.mem_or_eq_of_mem_set hx with h | h
  · exact hl x h
  · exact h ▸ ha

theorem forall_mem_construct {T E : Type} (P : optional T → Prop) (w : World T)
    (r : Result E (optional T)) (hw : ∀ o ∈ w.objs, P o)
    (hr : ∀ o, r = .returned o → P o) : ∀ o ∈ (w.construct r).objs, P o := by
  cases r with
  | returned o =>
    intro x hx
    simp only [World.construct, List.mem_append, List.mem_singleton] at hx
    rcases hx with h | h
    · exact hw x h
    · exact h ▸ hr o rfl
  | threw e => exact hw
  | terminated => exact hw
  | undefined => exact hw

theorem forall_mem_update {T E : Type} (P : optional T → Prop) (w : World T) (i : Nat)
    (o : optional T) (r : Result E Unit) (hw : ∀ x ∈ w.objs, P x) (ho : P o) :
    ∀ x ∈ (w.update i o r).objs, P x := by
  cases r <;> exact forall_mem_set P _ _ _ hw ho

theorem explicitOnly_exec {T Args E : Type} (H : HeldType T Args E) (w : World T)
    (c : Cmd T Args) (hnt : H.is_trivially_copyable = false)
    (hw : ∀ o ∈ w.objs, o.ExplicitOnly) : ∀ o ∈ (exec H w c).objs, o.ExplicitOnly := by
  have hfresh : (optional.default_ctor : optional T).ExplicitOnly := explicitOnly_fresh
  have hin : ∀ (a : Init T Args) (o : optional T),
      optional.in_place_ctor H a = .returned o → o.ExplicitOnly := by
    intro a o h
    unfold optional.in_place_ctor at h
    rw [hnt] at h
    exact explicitOnly_in_place H a o (noexcept_if_returned _ _ _ (by simpa using h))
  have hreset : ∀ o : optional T, o.ExplicitOnly → (optional.reset H o).ExplicitOnly := by
    intro o h
    rw [optional_reset_eq]
    exact explicitOnly_reset o h
  cases c with
  | default_construct =>
    simp only [exec]
    split
    · exact hw
    · exact forall_mem_construct _ _ _ hw (fun o h => by cases h; exact hfresh)
  | nullopt_construct =>
    simp only [exec]
    split
    · exact hw
    · exact forall_mem_construct _ _ _ hw (fun o h => by cases h; exact hfresh)
  | value_construct v =>
    simp only [exec]
    split
    · exact hw
    · exact forall_mem_construct _ _ _ hw
        (fun o h => hin _ o (noexcept_if_returned _ _ _ h))
  | in_place_construct a =>
    simp only [exec]
    split
    · exact hw
    · exact forall_mem_construct _ _ _ hw (fun o h => hin a o h)
  | copy_construct src =>
    simp only [exec]
    split
    · exact hw
    · split
      · rename_i s hs
        refine forall_mem_construct _ _ _ hw (fun o h => ?_)
        simp only [optional.copy_ctor, hnt, Bool.false_eq_true, if_false] at h
        exact explicitOnly_copy_ctor H s o h
      · exact hw
  | move_construct src =>
    simp only [exec]
    split
    · exact hw
    · split
      · rename_i s hs
        have hsi := hw s (List.getElem?_mem hs)
        simp only [optional.move_ctor, hnt, Bool.false_eq_true, if_false]
        exact forall_mem_construct _ _ _
          (forall_mem_set _ _ _ _ hw (explicitOnly_move_ctor_source H s hsi))
          (fun o h => explicitOnly_move_ctor H s o h)
      · exact hw
  | emplace i a =>
    simp only [exec]
    split
    · exact hw
    · split
      · rename_i o ho
        rw [optional_emplace_eq]
        exact forall_mem_update _ _ _ _ _ hw
          (explicitOnly_emplace H a o (hw o (List.getElem?_mem ho)))
      · exact hw
  | reset i =>
    simp only [exec]
    split
    · exact hw
    · split
      · rename_i o ho
        exact forall_mem_update _ _ _ _ _ hw (hreset o (hw o (List.getElem?_mem ho)))
      · exact hw
  | assign_nullopt i =>
    simp only [exec]
    split
    · exact hw
    · split
      · rename_i o ho
        exact forall_mem_update _ _ _ _ _ hw (hreset o (hw o (List.getElem?_mem ho)))
      · exact hw
  | copy_assign dst src =>
    simp only [exec]
    split
    · exact hw
    · split
      · rename_i d s hd hs
        simp only [optional.copy_assign, hnt, Bool.false_eq_true, if_false]
        exact forall_mem_update _ _ _ _ _ hw
          (explicitOnly_copy_assign H d s (hw d (List.getElem?_mem hd)))
      · exact hw
  | move_assign dst src =>
    simp only [exec]
    split
    · exact hw
    · split
      · rename_i d s hd hs
        simp only [optional.move_assign, hnt, Bool.false_eq_true, if_false]
        exact forall_mem_update _ _ _ _ _
          (forall_mem_set _ _ _ _ hw
            (explicitOnly_move_assign_source H d s (hw s (List.getElem?_mem hs))))
          (explicitOnly_move_assign H d s (hw d (List.getElem?_mem hd)))
      · exact hw

theorem explicitOnly_run {T Args E : Type} (H : HeldType T Args E)
    (cmds : List (Cmd T Args)) (w : World T) (hnt : H.is_trivially_copyable = false)
    (hw : ∀ o ∈ w.objs, o.ExplicitOnly) : ∀ o ∈ (run H cmds w).objs, o.ExplicitOnly := by
  induction cmds generalizing w with
  | nil => exact hw
  | cons c cs ih => exact ih (exec H w c) (explicitOnly_exec H w c hnt hw)

theorem counts_of_explicitOnly {T : Type} (o : optional T) (h : o.ExplicitOnly) :
    constructions o.log = constructor_calls o.log ∧
    destructions o.log = destructor_calls o.log := by
  unfold optional.ExplicitOnly at h
  unfold constructions constructor_calls destructions destructor_calls
  constructor
  · apply List.countP_congr
    intro e he
    have := h e he
    cases hop : e.op <;> simp_all [Op.begins]
  · apply List.countP_congr
    intro e he
    have := h e he
    cases hop : e.op <;> simp_all [Op.ends]

/-- Destruction, for a held type whose destructor is not trivial. Destroying
any optional `p` calls `reset()`, which calls the destructor of `T` exactly
when the flag of `p` is set; the teardown of the storage cell calls nothing.
For an optional `o` of a program that constructs what it flags, at every moment the
destructor has been called at most as often as a constructor completed in its
cell, and after the destruction of `o` every `T` constructed in the cell has
been destroyed exactly once: as many destructor calls as completed constructor
calls, and no `T` is left in the cell. -/
theorem destruction_of_program {T Args E : Type} (H : HeldType T Args E)
    (cmds : List (Cmd T Args)) (o p : optional T)
    (hnt : H.is_trivially_destructible = false)
    (hcs : ∀ c ∈ cmds, c.constructs_what_it_flags = true)
    (ho : o ∈ (run H cmds World.init).objs) :
    (optional.dtor H p).log
      = p.log ++ (if p.has_value = true then [{ op := Op.destroy, ok := true }] else []) ∧
    destructor_calls (optional.dtor H p).log
      = destructor_calls p.log + (if p.has_value = true then 1 else 0) ∧
    storage_dtor H p = p ∧
    destructor_calls o.log ≤ constructor_calls o.log ∧
    constructor_calls (optional.dtor H o).log = destructor_calls (optional.dtor H o).log ∧
    (optional.dtor H o).stg.value = none := by
  have hntc : H.is_trivially_copyable = false := by
    simp [HeldType.is_trivially_copyable, hnt]
  have hd : ∀ q : optional T, optional.dtor H q = copy_base_nontrivial.reset q := by
    intro q
    simp [optional.dtor, destroy_base.dtor, storage_dtor, destroy_base.reset, hnt, hntc]
  have hlog : ∀ q : optional T, (copy_base_nontrivial.reset q).log
      = q.log ++ (if q.has_value = true then [{ op := Op.destroy, ok := true }] else []) := by
    intro q
    cases hv : q.has_value_ <;>
      simp [copy_base_nontrivial.reset, hv, optional.has_value, optional.destroy_value,
        optional.set_has_value]
  have hinv := allInv_run H cmds World.init hcs allInv_init o ho
  have hex := explicitOnly_run H cmds World.init hntc (by intro x hx; simp [World.init] at hx)
    o ho
  obtain ⟨hc1, hc2⟩ := counts_of_explicitOnly o hex
  have hex2 : (copy_base_nontrivial.reset o).ExplicitOnly := explicitOnly_reset o hex
  obtain ⟨hc3, hc4⟩ := counts_of_explicitOnly _ hex2
  have hinv2 := inv_reset_nontrivial o hinv
  have hflag : (copy_base_nontrivial.reset o).has_value_ = false := by
    cases hv : o.has_value_ <;>
      simp [copy_base_nontrivial.reset, hv, optional.destroy_value, optional.set_has_value]
  refine ⟨?_, ?_, ?_, ?_, ?_, ?_⟩
  · rw [hd, hlog]
  · rw [hd, hlog, destructor_calls_append]
    cases p.has_value <;> simp [destructor_calls]
  · simp [storage_dtor, hnt]
  · rw [← hc1, ← hc2, hinv.2]
    exact Nat.le_add_right _ _
  · rw [hd, ← hc3, ← hc4, hinv2.2, hflag]
    simp
  · rw [hd]
    have := hinv2.1
    rw [hflag] at this
    simpa using this

/-- C14 (the code diverges): for the non-trivially destructible `string_type`,
the program `{ optional<string> o(in_place); }` constructs no `T` in the cell
of `o` and sets its flag; the destructor of `o` then calls `~T()` once, on a
cell in which nothing was constructed: one destructor call against zero
constructor calls. -/
theorem C14_destructor_call_without_construction :
    ({ stg := { value := none }, has_value_ := true, log := [] } : optional (List Nat))
      ∈ (run string_type [Cmd.in_place_construct Init.empty] World.init).objs ∧
    string_type.is_trivially_destructible = false ∧
    (optional.dtor string_type
      { stg := { value := none }, has_value_ := true, log := [] }).log
      = [{ op := Op.destroy, ok := true }] ∧
    destructor_calls (optional.dtor string_type
      { stg := { value := none }, has_value_ := true, log := [] }).log = 1 ∧
    constructor_calls (optional.dtor string_type
      { stg := { value := none }, has_value_ := true, log := [] }).log = 0 := by
  decide

/-- C15 (the code diverges): `throwing_type` has a move constructor that is
not declared `noexcept` and throws `3` on the value 13. The constructor
`optional(T value)`, declared `noexcept(std::is_move_constructible_v<T>)`,
ends in `std::terminate` on that value, while the in-place constructor and
`emplace`, given the same rvalue, deliver the exception `3` to the caller. -/
theorem C15_value_constructor_terminates :
    (throwing_type.move_construct 13).1 = .error 3 ∧
    throwing_type.is_nothrow_move_constructible = false ∧
    optional.value_ctor throwing_type 13 = .terminated ∧
    optional.in_place_ctor throwing_type (Init.rvalue 13) = .threw 3 ∧
    (optional.emplace throwing_type (Init.rvalue 13) optional.default_ctor).1 = .threw 3 :=
  ⟨rfl, rfl, by decide, by decide, by decide⟩

/-! ## The four cases of assignment -/

theorem nt_copy_assign_present_present {T Args E : Type} (H : HeldType T Args E) (x y : T)
    (dl sl : List Event) :
    (copy_base_nontrivial.copy_assign H
      { stg := { value := some x }, has_value_ := true, log := dl }
      { stg := { value := some y }, has_value_ := true, log := sl }).2
      = { stg := { value := some (H.copy_assign x y).2 }, has_value_ := true,
          log := dl ++ [{ op := Op.copy_assign, ok := (H.copy_assign x y).1.isNone }] } := by
  rcases hc : H.copy_assign x y with ⟨r, x1⟩
  cases r <;>
    simp [copy_base_nontrivial.copy_assign, optional.read_value, hc,
      optional.assigned, optional.set_has_value]

theorem nt_move_assign_present_present {T Args E : Type} (H : HeldType T Args E) (x y : T)
    (dl sl : List Event) :
    (copy_base_nontrivial.move_assign H
      { stg := { value := some x }, has_value_ := true, log := dl }
      { stg := { value := some y }, has_value_ := true, log := sl }).2.1
      = { stg := { value := some (H.move_assign x y).2.1 }, has_value_ := true,
          log := dl ++ [{ op := Op.move_assign, ok := (H.move_assign x y).1.isNone }] } := by
  rcases hm : H.move_assign x y with ⟨r, x1, y1⟩
  cases r <;>
    simp [copy_base_nontrivial.move_assign, optional.read_value, hm,
      optional.assigned, optional.set_has_value]

theorem nt_copy_assign_absent_present {T Args E : Type} (H : HeldType T Args E) (y : T)
    (dl sl : List Event) :
    (copy_base_nontrivial.copy_assign H
      { stg := { value := none }, has_value_ := false, log := dl }
      { stg := { value := some y }, has_value_ := true, log := sl }).2
      = (match H.copy_construct y with
         | .ok t => { stg := { value := some t }, has_value_ := true,
                      log := dl ++ [{ op := Op.copy_construct, ok := true }] }
         | .error _ => { stg := { value := none }, has_value_ := false,
                         log := dl ++ [{ op := Op.copy_construct, ok := false }] }) := by
  cases hc : H.copy_construct y <;>
    simp [copy_base_nontrivial.copy_assign, optional.read_value, hc,
      optional.failed_new, optional.placement_new, optional.set_has_value]

theorem nt_move_assign_absent_present {T Args E : Type} (H : HeldType T Args E) (y : T)
    (dl sl : List Event) :
    (copy_base_nontrivial.move_assign H
      { stg := { value := none }, has_value_ := false, log := dl }
      { stg := { value := some y }, has_value_ := true, log := sl }).2.1
      = (match (H.move_construct y).1 with
         | .ok t => { stg := { value := some t }, has_value_ := true,
                      log := dl ++ [{ op := Op.move_construct, ok := true }] }
         | .error _ => { stg := { value := none }, has_value_ := false,
                         log := dl ++ [{ op := Op.move_construct, ok := false }] }) := by
  rcases hm : H.move_construct y with ⟨r, y1⟩
  cases r <;>
    simp [copy_base_nontrivial.move_assign, optional.read_value, hm,
      optional.failed_new, optional.placement_new, optional.set_has_value]

/-- C16: the four cases of `d = s` and `d = std::move(s)` under the
non-trivial strategy, for optionals satisfying the invariant. The calls made
on the value of `d` are: none when both are absent (`d` and `s` are left as
they were); one destructor call, with the flag cleared, when only `d` is
present; one copy (move) construction from the value of `s`, with the flag set
once it completes, when only `s` is present; one copy (move) assignment from
the value of `s`, with the flag left set, when both are present. -/
theorem C16_four_case_assignment {T Args E : Type} (H : HeldType T Args E)
    (d s : optional T) (hd : d.Inv) (hs : s.Inv) :
    (s.has_value = false → d.has_value = false →
      copy_base_nontrivial.copy_assign H d s = (.returned (), d) ∧
      copy_base_nontrivial.move_assign H d s = (.returned (), d, s)) ∧
    (s.has_value = false → d.has_value = true →
      (copy_base_nontrivial.copy_assign H d s).1 = .returned () ∧
      (copy_base_nontrivial.copy_assign H d s).2.log
        = d.log ++ [{ op := Op.destroy, ok := true }] ∧
      (copy_base_nontrivial.copy_assign H d s).2.has_value = false ∧
      (copy_base_nontrivial.copy_assign H d s).2.stg.value = none ∧
      (copy_base_nontrivial.move_assign H d s).1 = .returned () ∧
      (copy_base_nontrivial.move_assign H d s).2.1.log
        = d.log ++ [{ op := Op.destroy, ok := true }] ∧
      (copy_base_nontrivial.move_assign H d s).2.1.has_value = false ∧
      (copy_base_nontrivial.move_assign H d s).2.1.stg.value = none) ∧
    (s.has_value = true → d.has_value = false → ∃ y, s.deref = some y ∧
      (copy_base_nontrivial.copy_assign H d s).2.log
        = d.log ++ [{ op := Op.copy_construct, ok := (H.copy_construct y).toBool }] ∧
      (∀ t, H.copy_construct y = .ok t →
        (copy_base_nontrivial.copy_assign H d s).2.has_value = true ∧
        (copy_base_nontrivial.copy_assign H d s).2.deref = some t) ∧
      (copy_base_nontrivial.move_assign H d s).2.1.log
        = d.log ++ [{ op := Op.move_construct, ok := (H.move_construct y).1.toBool }] ∧
      (∀ t, (H.move_construct y).1 = .ok t →
        (copy_base_nontrivial.move_assign H d s).2.1.has_value = true ∧
        (copy_base_nontrivial.move_assign H d s).2.1.deref = some t)) ∧
    (s.has_value = true → d.has_value = true → ∃ x y, d.deref = some x ∧ s.deref = some y ∧
      (copy_base_nontrivial.copy_assign H d s).2.log
        = d.log ++ [{ op := Op.copy_assign, ok := (H.copy_assign x y).1.isNone }] ∧
      (copy_base_nontrivial.copy_assign H d s).2.has_value = true ∧
      (copy_base_nontrivial.copy_assign H d s).2.deref = some (H.copy_assign x y).2 ∧
      (copy_base_nontrivial.move_assign H d s).2.1.log
        = d.log ++ [{ op := Op.move_assign, ok := (H.move_assign x y).1.isNone }] ∧
      (copy_base_nontrivial.move_assign H d s).2.1.has_value = true ∧
      (copy_base_nontrivial.move_assign H d s).2.1.deref = some (H.move_assign x y).2.1) := by
  obtain ⟨⟨sv⟩, sf, sl⟩ := s
  obtain ⟨⟨dv⟩, df, dl⟩ := d
  obtain ⟨h1, _⟩ := hs
  obtain ⟨h2, _⟩ := hd
  simp only at h1 h2
  subst h1 h2
  cases sv with
  | none =>
    cases dv with
    | none =>
      refine ⟨fun _ _ => ?_, fun _ h => ?_, fun h _ => ?_, fun h _ => ?_⟩
      · simp [copy_base_nontrivial.copy_assign, copy_base_nontrivial.move_assign,
          optional.set_has_value]
      · exact absurd h (by simp [optional.has_value])
      · exact absurd h (by simp [optional.has_value])
      · exact absurd h (by simp [optional.has_value])
    | some x =>
      refine ⟨fun _ h => ?_, fun _ _ => ?_, fun h _ => ?_, fun h _ => ?_⟩
      · exact absurd h (by simp [optional.has_value])
      · simp [copy_base_nontrivial.copy_assign, copy_base_nontrivial.move_assign,
          optional.has_value, optional.set_has_value, optional.destroy_value]
      · exact absurd h (by simp [optional.has_value])
      · exact absurd h (by simp [optional.has_value])
  | some y =>
    cases dv with
    | none =>
      refine ⟨fun h _ => ?_, fun h _ => ?_, fun _ _ => ?_, fun _ h => ?_⟩
      · exact absurd h (by simp [optional.has_value])
      · exact absurd h (by simp [optional.has_value])
      · refine ⟨y, rfl, ?_⟩
        simp only [Option.isSome_some, Option.isSome_none]
        rw [nt_copy_assign_absent_present, nt_move_assign_absent_present]
        refine ⟨?_, ?_, ?_, ?_⟩
        · cases hc : H.copy_construct y <;> simp [Except.toBool]
        · intro t ht
          rw [ht]
          exact ⟨rfl, rfl⟩
        · cases hc : (H.move_construct y).1 <;> simp [Except.toBool]
        · intro t ht
          rw [ht]
          exact ⟨rfl, rfl⟩
      · exact absurd h (by simp [optional.has_value])
    | some x =>
      refine ⟨fun h _ => ?_, fun h _ => ?_, fun _ h => ?_, fun _ _ => ?_⟩
      · exact absurd h (by simp [optional.has_value])
      · exact absurd h (by simp [optional.has_value])
      · exact absurd h (by simp [optional.has_value])
      · refine ⟨x, y, rfl, rfl, ?_⟩
        simp only [Option.isSome_some]
        rw [nt_copy_assign_present_present, nt_move_assign_present_present]
        exact ⟨rfl, rfl, rfl, rfl, rfl, rfl⟩

/-- Witness for C16: over `throwing_type`, `d` holding 5 and `s` holding 7:
`d = s` makes exactly one copy assignment on the value of `d` and leaves it
present. -/
theorem C16_four_case_assignment_witness :
    (copy_base_nontrivial.copy_assign throwing_type
      { stg := { value := some 5 }, has_value_ := true,
        log := [{ op := Op.construct, ok := true }] }
      { stg := { value := some 7 }, has_value_ := true,
        log := [{ op := Op.construct, ok := true }] }).2.log
      = [{ op := Op.construct, ok := true }, { op := Op.copy_assign, ok := true }] ∧
    (copy_base_nontrivial.copy_assign throwing_type
      { stg := { value := some 5 }, has_value_ := true,
        log := [{ op := Op.construct, ok := true }] }
      { stg := { value := some 7 }, has_value_ := true,
        log := [{ op := Op.construct, ok := true }] }).2.has_value = true := by
  obtain ⟨x, y, hx, hy, hlog, hflag, _⟩ := (C16_four_case_assignment throwing_type
      { stg := { value := some 5 }, has_value_ := true,
        log := [{ op := Op.construct, ok := true }] }
      { stg := { value := some 7 }, has_value_ := true,
        log := [{ op := Op.construct, ok := true }] }
      (by decide) (by decide)).2.2.2 rfl rfl
  cases hx
  cases hy
  exact ⟨hlog, hflag⟩

/-- C17: ordering inside `emplace`, for an optional satisfying the invariant.
The calls `o.emplace(args...)` makes on the cell are, in this order: one
destructor call if `o` was present (none if it was absent), then the attempt
to construct the new value, whether or not it completes; and after each of
these calls at most one `T` is alive in the cell. -/
theorem C17_emplace_ordering {T Args E : Type} (H : HeldType T Args E) (a : Init T Args)
    (o : optional T) (hinv : o.Inv) :
    ∃ ext, (optional.emplace H a o).2.log = o.log ++ ext ∧
      ext = (if o.has_value = true then [{ op := Op.destroy, ok := true }] else [])
              ++ [{ op := a.op, ok := (H.init a).toBool }] ∧
      ∀ k, constructions (o.log ++ ext.take k) ≤ destructions (o.log ++ ext.take k) + 1 := by
  obtain ⟨_, h2⟩ := hinv
  have hb := init_op_begins a
  have he := init_op_ends a
  refine ⟨_, ?_, rfl, ?_⟩
  · rw [optional_emplace_eq]
    cases hv : o.has_value_ <;> cases hc : H.init a <;>
      simp [copy_base_nontrivial.emplace, copy_base_nontrivial.reset, hv, hc,
        optional.has_value, optional.failed_new, optional.placement_new,
        optional.destroy_value, optional.set_has_value, Except.toBool]
  · intro k
    rw [constructions_append, destructions_append, h2]
    have hdb : Op.destroy.begins = false := rfl
    have hde : Op.destroy.ends = true := rfl
    cases hv : o.has_value_ <;> cases hc : H.init a <;>
      rcases k with _ | _ | k <;>
      simp [optional.has_value, hv, Except.toBool, constructions, destructions,
        List.countP_cons, hb, he, hdb, hde]

/-- Witness for C17: an optional of `throwing_type` holding 5; `emplace(0)`,
whose constructor throws, logs the destructor call and then the failed
construction. -/
theorem C17_emplace_ordering_witness :
    ∃ ext, (optional.emplace throwing_type (Init.pack 0)
        { stg := { value := some 5 }, has_value_ := true,
          log := [{ op := Op.construct, ok := true }] }).2.log
        = [{ op := Op.construct, ok := true }] ++ ext ∧
      ext = [{ op := Op.destroy, ok := true }, { op := Op.construct, ok := false }] := by
  obtain ⟨ext, h1, h2, _⟩ := C17_emplace_ordering throwing_type (Init.pack 0)
      { stg := { value := some 5 }, has_value_ := true,
        log := [{ op := Op.construct, ok := true }] } (by decide)
  exact ⟨ext, h1, h2⟩

/-- C18: strategy equivalence. For a held type whose copy and move
construction and assignment reproduce the value and cannot fail, and for
optionals `d`, `s` satisfying the invariant (so in each of the four presence
cases), the explicit four-case operations of the non-trivial strategy return,
and what the caller can observe of the destination (presence and, when
present, held value) is what the whole-pair copy of the trivial strategy gives;
the source is observably unchanged under both. -/
theorem C18_strategy_equivalence {T Args E : Type} (H : HeldType T Args E)
    (d s : optional T) (hd : d.Inv) (hs : s.Inv)
    (hcc : ∀ y, H.copy_construct y = .ok y)
    (hmc : ∀ y, H.move_construct y = (.ok y, y))
    (hca : ∀ x y, H.copy_assign x y = (none, y))
    (hma : ∀ x y, H.move_assign x y = (none, y, y)) :
    (∃ c, copy_base_nontrivial.copy_ctor H s = .returned c ∧
      c.observe = (copy_base_trivial.copy_ctor s).observe) ∧
    (∃ c, (copy_base_nontrivial.move_ctor H s).1 = .returned c ∧
      c.observe = (copy_base_trivial.copy_ctor s).observe) ∧
    (copy_base_nontrivial.move_ctor H s).2.observe = s.observe ∧
    (copy_base_nontrivial.copy_assign H d s).1 = .returned () ∧
    (copy_base_nontrivial.copy_assign H d s).2.observe
      = (copy_base_trivial.assign d s).observe ∧
    (copy_base_nontrivial.move_assign H d s).1 = .returned () ∧
    (copy_base_nontrivial.move_assign H d s).2.1.observe
      = (copy_base_trivial.assign d s).observe ∧
    (copy_base_nontrivial.move_assign H d s).2.2.observe = s.observe := by
  obtain ⟨⟨sv⟩, sf, sl⟩ := s
  obtain ⟨⟨dv⟩, df, dl⟩ := d
  obtain ⟨h1, _⟩ := hs
  obtain ⟨h2, _⟩ := hd
  simp only at h1 h2
  subst h1 h2
  cases sv <;> cases dv <;>
    simp [copy_base_nontrivial.copy_ctor, copy_base_nontrivial.move_ctor,
      copy_base_nontrivial.copy_assign, copy_base_nontrivial.move_assign,
      copy_base_trivial.copy_ctor, copy_base_trivial.assign, optional.observe,
      optional.has_value, optional.deref, optional.read_value, optional.fresh,
      optional.set_has_value, optional.placement_new, optional.assigned,
      optional.destroy_value, storage.empty, hcc, hmc, hca, hma]

/-- Witness for C18: `int_type`, `d` holding 3 and `s` holding 5: the
four-case copy assignment leaves in `d` what the whole-pair copy leaves,
present with value 5. -/
theorem C18_strategy_equivalence_witness :
    (copy_base_nontrivial.copy_assign int_type
      { stg := { value := some 3 }, has_value_ := true,
        log := [{ op := Op.construct, ok := true }] }
      { stg := { value := some 5 }, has_value_ := true,
        log := [{ op := Op.construct, ok := true }] }).2.observe
      = (@copy_base_trivial.assign Int
      { stg := { value := some 3 }, has_value_ := true,
        log := [{ op := Op.construct, ok := true }] }
      { stg := { value := some 5 }, has_value_ := true,
        log := [{ op := Op.construct, ok := true }] }).observe ∧
    (@copy_base_trivial.assign Int
      { stg := { value := some 3 }, has_value_ := true,
        log := [{ op := Op.construct, ok := true }] }
      { stg := { value := some 5 }, has_value_ := true,
        log := [{ op := Op.construct, ok := true }] }).observe
      = (true, some 5) :=
  ⟨(C18_strategy_equivalence int_type
      { stg := { value := some 3 }, has_value_ := true,
        log := [{ op := Op.construct, ok := true }] }
      { stg := { value := some 5 }, has_value_ := true,
        log := [{ op := Op.construct, ok := true }] }
      (by decide) (by decide) (fun _ => rfl) (fun _ => rfl) (fun _ _ => rfl)
      (fun _ _ => rfl)).2.2.2.2.1,
   by decide⟩

/-! ## Outcome of an assignment of the non-trivial strategy -/

theorem noexcept_if_threw {E α : Type} (c : Bool) (e : E) :
    (∃ e1, (noexcept_if c (.threw e) : Result E α) = .threw e1) ∨
    (noexcept_if c (.threw e) : Result E α) = .terminated := by
  cases c
  · exact Or.inl ⟨e, rfl⟩
  · exact Or.inr rfl

theorem nt_copy_assign_outcome_present_present {T Args E : Type} (H : HeldType T Args E)
    (x y : T) (dl sl : List Event) :
    (copy_base_nontrivial.copy_assign H
      { stg := { value := some x }, has_value_ := true, log := dl }
      { stg := { value := some y }, has_value_ := true, log := sl }).1
      = (match (H.copy_assign x y).1 with
         | none => .returned ()
         | some e => noexcept_if
             (H.is_nothrow_copy_constructible && H.is_nothrow_copy_assignable) (.threw e)) := by
  rcases hc : H.copy_assign x y with ⟨r, x1⟩
  cases r <;> simp [copy_base_nontrivial.copy_assign, optional.read_value, hc]

theorem nt_copy_assign_outcome_absent_present {T Args E : Type} (H : HeldType T Args E)
    (y : T) (dl sl : List Event) :
    (copy_base_nontrivial.copy_assign H
      { stg := { value := none }, has_value_ := false, log := dl }
      { stg := { value := some y }, has_value_ := true, log := sl }).1
      = (match H.copy_construct y with
         | .ok _ => .returned ()
         | .error e => noexcept_if
             (H.is_nothrow_copy_constructible && H.is_nothrow_copy_assignable) (.threw e)) := by
  cases hc : H.copy_construct y <;>
    simp [copy_base_nontrivial.copy_assign, optional.read_value, hc]

theorem nt_move_assign_outcome_present_present {T Args E : Type} (H : HeldType T Args E)
    (x y : T) (dl sl : List Event) :
    (copy_base_nontrivial.move_assign H
      { stg := { value := some x }, has_value_ := true, log := dl }
      { stg := { value := some y }, has_value_ := true, log := sl }).1
      = (match (H.move_assign x y).1 with
         | none => .returned ()
         | some e => noexcept_if
             (H.is_nothrow_move_constructible && H.is_nothrow_move_assignable) (.threw e)) := by
  rcases hc : H.move_assign x y with ⟨r, x1, y1⟩
  cases r <;> simp [copy_base_nontrivial.move_assign, optional.read_value, hc]

theorem nt_move_assign_outcome_absent_present {T Args E : Type} (H : HeldType T Args E)
    (y : T) (dl sl : List Event) :
    (copy_base_nontrivial.move_assign H
      { stg := { value := none }, has_value_ := false, log := dl }
      { stg := { value := some y }, has_value_ := true, log := sl }).1
      = (match (H.move_construct y).1 with
         | .ok _ => .returned ()
         | .error e => noexcept_if
             (H.is_nothrow_move_constructible && H.is_nothrow_move_assignable) (.threw e)) := by
  rcases hc : H.move_construct y with ⟨r, y1⟩
  cases r <;> simp [copy_base_nontrivial.move_assign, optional.read_value, hc]

theorem nt_assign_outcome_absent_source {T Args E : Type} (H : HeldType T Args E)
    (d s : optional T) (hs : s.has_value_ = false) :
    (copy_base_nontrivial.copy_assign H d s).1 = .returned () ∧
    (copy_base_nontrivial.move_assign H d s).1 = .returned () ∧
    (copy_base_nontrivial.move_assign H d s).2.2 = s := by
  cases hd : d.has_value_ <;>
    simp [copy_base_nontrivial.copy_assign, copy_base_nontrivial.move_assign, hs, hd]

theorem nt_move_assign_source_flag {T Args E : Type} (H : HeldType T Args E)
    (d s : optional T) :
    (copy_base_nontrivial.move_assign H d s).2.2.has_value_ = s.has_value_ := by
  unfold copy_base_nontrivial.move_assign
  repeat' split
  all_goals rfl

theorem failed_copy_assign_spec {T Args E : Type} (H : HeldType T Args E)
    (d s : optional T) (hd : d.Inv) (hs : s.Inv)
    (hne : (copy_base_nontrivial.copy_assign H d s).1 ≠ .returned ()) :
    ((∃ e, (copy_base_nontrivial.copy_assign H d s).1 = .threw e) ∨
      (copy_base_nontrivial.copy_assign H d s).1 = .terminated) ∧
    (copy_base_nontrivial.copy_assign H d s).2.has_value = d.has_value ∧
    (copy_base_nontrivial.copy_assign H d s).2.stg.value.isSome = d.stg.value.isSome := by
  obtain ⟨⟨sv⟩, sf, sl⟩ := s
  obtain ⟨⟨dv⟩, df, dl⟩ := d
  obtain ⟨h1, _⟩ := hs
  obtain ⟨h2, _⟩ := hd
  simp only at h1 h2
  subst h1 h2
  cases sv with
  | none => exact absurd (nt_assign_outcome_absent_source H _ _ rfl).1 hne
  | some y =>
    cases dv with
    | none =>
      simp only [Option.isSome_some, Option.isSome_none] at hne ⊢
      rw [nt_copy_assign_outcome_absent_present] at hne ⊢
      rw [nt_copy_assign_absent_present]
      cases hc : H.copy_construct y with
      | ok t =>
        rw [hc] at hne
        exact absurd rfl hne
      | error e => exact ⟨noexcept_if_threw _ e, rfl, rfl⟩
    | some x =>
      simp only [Option.isSome_some] at hne ⊢
      rw [nt_copy_assign_outcome_present_present] at hne ⊢
      rw [nt_copy_assign_present_present]
      cases hc : (H.copy_assign x y).1 with
      | none =>
        rw [hc] at hne
        exact absurd rfl hne
      | some e => exact ⟨noexcept_if_threw _ e, rfl, rfl⟩

theorem failed_move_assign_spec {T Args E : Type} (H : HeldType T Args E)
    (d s : optional T) (hd : d.Inv) (hs : s.Inv)
    (hne : (copy_base_nontrivial.move_assign H d s).1 ≠ .returned ()) :
    ((∃ e, (copy_base_nontrivial.move_assign H d s).1 = .threw e) ∨
      (copy_base_nontrivial.move_assign H d s).1 = .terminated) ∧
    (copy_base_nontrivial.move_assign H d s).2.1.has_value = d.has_value ∧
    (copy_base_nontrivial.move_assign H d s).2.1.stg.value.isSome = d.stg.value.isSome := by
  obtain ⟨⟨sv⟩, sf, sl⟩ := s
  obtain ⟨⟨dv⟩, df, dl⟩ := d
  obtain ⟨h1, _⟩ := hs
  obtain ⟨h2, _⟩ := hd
  simp only at h1 h2
  subst h1 h2
  cases sv with
  | none => exact absurd (nt_assign_outcome_absent_source H _ _ rfl).2.1 hne
  | some y =>
    cases dv with
    | none =>
      simp only [Option.isSome_some, Option.isSome_none] at hne ⊢
      rw [nt_move_assign_outcome_absent_present] at hne ⊢
      rw [nt_move_assign_absent_present]
      cases hc : (H.move_construct y).1 with
      | ok t =>
        rw [hc] at hne
        exact absurd rfl hne
      | error e => exact ⟨noexcept_if_threw _ e, rfl, rfl⟩
    | some x =>
      simp only [Option.isSome_some] at hne ⊢
      rw [nt_move_assign_outcome_present_present] at hne ⊢
      rw [nt_move_assign_present_present]
      cases hc : (H.move_assign x y).1 with
      | none =>
        rw [hc] at hne
        exact absurd rfl hne
      | some e => exact ⟨noexcept_if_threw _ e, rfl, rfl⟩

/-- C19: a failing assignment keeps the presence of the destination. Under
the non-trivial strategy, for optionals satisfying the invariant, if `d = s`
or `d = std::move(s)` does not return, then an operation of `T` threw (the
call throws or, when declared `noexcept`, terminates), `d` has the flag it had
before, a `T` lives in its cell exactly if one did before, the invariant holds
for it, and the flag of `s` is unchanged (after the move `s` also still
satisfies the invariant). -/
theorem C19_failed_assignment_keeps_presence {T Args E : Type} (H : HeldType T Args E)
    (d s : optional T) (hd : d.Inv) (hs : s.Inv) :
    ((copy_base_nontrivial.copy_assign H d s).1 ≠ .returned () →
      ((∃ e, (copy_base_nontrivial.copy_assign H d s).1 = .threw e) ∨
        (copy_base_nontrivial.copy_assign H d s).1 = .terminated) ∧
      (copy_base_nontrivial.copy_assign H d s).2.has_value = d.has_value ∧
      (copy_base_nontrivial.copy_assign H d s).2.stg.value.isSome = d.stg.value.isSome ∧
      (copy_base_nontrivial.copy_assign H d s).2.Inv) ∧
    ((copy_base_nontrivial.move_assign H d s).1 ≠ .returned () →
      ((∃ e, (copy_base_nontrivial.move_assign H d s).1 = .threw e) ∨
        (copy_base_nontrivial.move_assign H d s).1 = .terminated) ∧
      (copy_base_nontrivial.move_assign H d s).2.1.has_value = d.has_value ∧
      (copy_base_nontrivial.move_assign H d s).2.1.stg.value.isSome = d.stg.value.isSome ∧
      (copy_base_nontrivial.move_assign H d s).2.1.Inv ∧
      (copy_base_nontrivial.move_assign H d s).2.2.has_value = s.has_value ∧
      (copy_base_nontrivial.move_assign H d s).2.2.Inv) := by
  refine ⟨fun hne => ?_, fun hne => ?_⟩
  · obtain ⟨h1, h2, h3⟩ := failed_copy_assign_spec H d s hd hs hne
    exact ⟨h1, h2, h3, inv_copy_assign_nontrivial H d s hd⟩
  · obtain ⟨h1, h2, h3⟩ := failed_move_assign_spec H d s hd hs hne
    exact ⟨h1, h2, h3, inv_move_assign_nontrivial H d s hd,
      nt_move_assign_source_flag H d s, inv_move_assign_source_nontrivial H d s hs⟩

/-- Witness for C19: over `throwing_type`, `d` holding 5 and `s` holding 200,
whose copy assignment throws `4`: `d = s` throws `4` and `d` is still present;
and into an empty `d` the copy constructor throws `2` and `d` is still
absent. -/
theorem C19_failed_assignment_keeps_presence_witness :
    (copy_base_nontrivial.copy_assign throwing_type
      { stg := { value := some 5 }, has_value_ := true,
        log := [{ op := Op.construct, ok := true }] }
      { stg := { value := some 200 }, has_value_ := true,
        log := [{ op := Op.construct, ok := true }] }).1 = .threw 4 ∧
    (copy_base_nontrivial.copy_assign throwing_type
      { stg := { value := some 5 }, has_value_ := true,
        log := [{ op := Op.construct, ok := true }] }
      { stg := { value := some 200 }, has_value_ := true,
        log := [{ op := Op.construct, ok := true }] }).2.has_value = true ∧
    (copy_base_nontrivial.copy_assign throwing_type optional.fresh
      { stg := { value := some 200 }, has_value_ := true,
        log := [{ op := Op.construct, ok := true }] }).1 = .threw 2 ∧
    (copy_base_nontrivial.copy_assign throwing_type optional.fresh
      { stg := { value := some 200 }, has_value_ := true,
        log := [{ op := Op.construct, ok := true }] }).2.has_value = false :=
  ⟨by decide,
   ((C19_failed_assignment_keeps_presence throwing_type
      { stg := { value := some 5 }, has_value_ := true,
        log := [{ op := Op.construct, ok := true }] }
      { stg := { value := some 200 }, has_value_ := true,
        log := [{ op := Op.construct, ok := true }] }
      (by decide) (by decide)).1 (by decide)).2.1,
   by decide,
   ((C19_failed_assignment_keeps_presence throwing_type optional.fresh
      { stg := { value := some 200 }, has_value_ := true,
        log := [{ op := Op.construct, ok := true }] }
      (by decide) (by decide)).1 (by decide)).2.1⟩

/-- C20 (the code diverges): for `optional<int>` `a(5)` and an empty `b`, the
operators do not agree, because `a <= b` and `a > b` go through `a < b`, which
reads the empty cell of `b`: `a <= b` is undefined while `!(b < a)` is false;
`b >= a` is false while `a <= b` is undefined; `a > b` is undefined while
`b < a` is true. With both operands present the four identities hold, as for
5 and 7. -/
theorem C20_derived_operators_disagree :
    operator_le int_type
      { stg := { value := some 5 }, has_value_ := true,
        log := [{ op := Op.move_construct, ok := true }] }
      optional.default_ctor = none ∧
    (operator_lt int_type optional.default_ctor
      { stg := { value := some 5 }, has_value_ := true,
        log := [{ op := Op.move_construct, ok := true }] }).map (fun r => !r)
      = some false ∧
    operator_ge int_type optional.default_ctor
      { stg := { value := some 5 }, has_value_ := true,
        log := [{ op := Op.move_construct, ok := true }] } = some false ∧
    operator_gt int_type
      { stg := { value := some 5 }, has_value_ := true,
        log := [{ op := Op.move_construct, ok := true }] }
      optional.default_ctor = none ∧
    operator_lt int_type optional.default_ctor
      { stg := { value := some 5 }, has_value_ := true,
        log := [{ op := Op.move_construct, ok := true }] } = some true ∧
    operator_le int_type
      { stg := { value := some 5 }, has_value_ := true,
        log := [{ op := Op.move_construct, ok := true }] }
      { stg := { value := some 7 }, has_value_ := true,
        log := [{ op := Op.move_construct, ok := true }] } = some true ∧
    operator_lt int_type
      { stg := { value := some 7 }, has_value_ := true,
        log := [{ op := Op.move_construct, ok := true }] }
      { stg := { value := some 5 }, has_value_ := true,
        log := [{ op := Op.move_construct, ok := true }] } = some false := by
  decide

end OptionalModel
